import Mathlib

/-!
Verification of the gell core (compiler, macro expander, bytecode VM)
against its natural-language specification.  The definitions below are a
shallow embedding of the Go sources: the value model (data.go), the VM
with its call frames (vm source, part_000), the bytecode emitters
(code source, part_002) and the single-pass compiler (compile source,
part_000), plus the quasiquote part of the macro expander (macro.go).
-/

namespace Gell

mutual
/-- Runtime value: shallow embedding of the LOB tagged union (data.go).
Numbers are modelled as integers (no claim concerns float behaviour);
`prim` names a host primitive, `applyFn` is the Apply builtin
instruction, `codev` wraps a code object used as a constant. -/
inductive LOB where
  | nullv : LOB
  | boolv : Bool → LOB
  | num : Int → LOB
  | strv : String → LOB
  | sym : String → LOB
  | kw : String → LOB
  | emptyList : LOB
  | cons : LOB → LOB → LOB
  | vec : List LOB → LOB
  | structv : List LOB → LOB
  | closure : Code → Option Frame → LOB
  | prim : String → LOB
  | applyFn : LOB
  | codev : Code → LOB

/-- VM call frame (part_000, type Frame): locals chain, previous (caller)
frame, saved ops and pc to resume at return, parameter slots, code. -/
inductive Frame where
  | mk : Option Frame → Option Frame → List Nat → List LOB → Option Code → Nat → Frame

/-- Compiled code object (part_002, type Code): name, flat opcode/operand
stream, argc, optional defaults vector, optional keys vector. -/
inductive Code where
  | mk : String → List Nat → Nat → Option (List LOB) → Option (List LOB) → Code
end

def Frame.locals : Frame → Option Frame
  | .mk l _ _ _ _ _ => l

def Frame.previous : Frame → Option Frame
  | .mk _ p _ _ _ _ => p

def Frame.ops : Frame → List Nat
  | .mk _ _ o _ _ _ => o

def Frame.elements : Frame → List LOB
  | .mk _ _ _ e _ _ => e

def Frame.code : Frame → Option Code
  | .mk _ _ _ _ c _ => c

def Frame.pc : Frame → Nat
  | .mk _ _ _ _ _ p => p

def Code.name : Code → String
  | .mk n _ _ _ _ => n

def Code.ops : Code → List Nat
  | .mk _ o _ _ _ => o

def Code.argc : Code → Nat
  | .mk _ _ a _ _ => a

def Code.defaults : Code → Option (List LOB)
  | .mk _ _ _ d _ => d

def Code.keys : Code → Option (List LOB)
  | .mk _ _ _ _ k => k

/-- Number of frames on the caller (previous) chain, the current frame
included; measures the live caller links from a frame. -/
def depthOpt : Option Frame → Nat
  | none => 0
  | some (.mk _ prev _ _ _ _) => 1 + depthOpt prev

/-- isList (data.go): true for cons cells and the empty list. -/
def isList : LOB → Bool
  | .emptyList => true
  | .cons _ _ => true
  | _ => false

/-- isPair / isSymbol style predicates used by the compiler source. -/
def isPair : LOB → Bool
  | .cons _ _ => true
  | _ => false

def isSymbol : LOB → Bool
  | .sym _ => true
  | _ => false

/-- car with the source convention that car of a non-pair is Null. -/
def car : LOB → LOB
  | .cons a _ => a
  | _ => .nullv

def cdr : LOB → LOB
  | .cons _ d => d
  | _ => .nullv

def cadr (x : LOB) : LOB := car (cdr x)

def caddr (x : LOB) : LOB := car (cdr (cdr x))

def cddr (x : LOB) : LOB := cdr (cdr x)

def cdddr (x : LOB) : LOB := cdr (cdr (cdr x))

/-- length of a list value: element count for proper lists, -1 for
non-lists and improper lists (source convention used by the compiler). -/
def llen : LOB → Int
  | .emptyList => 0
  | .cons _ d =>
    let n := llen d
    if n < 0 then -1 else n + 1
  | _ => -1

/-- listFromValues: build a proper list from the given values. -/
def listFromValues : List LOB → LOB
  | [] => .emptyList
  | v :: rest => .cons v (listFromValues rest)

/-- Elements of a proper list; none for improper lists and non-lists. -/
def properElems : LOB → Option (List LOB)
  | .emptyList => some []
  | .cons a d =>
    match properElems d with
    | some es => some (a :: es)
    | none => none
  | _ => none

mutual
/-- Rendering of values, following the String method switch in data.go;
closures render without the external declarations table (that table is
not part of the core). Used only inside error message texts. -/
def lobString : LOB → String
  | .nullv => "null"
  | .boolv b => if b then "true" else "false"
  | .num n => toString n
  | .strv s => s
  | .sym s => s
  | .kw s => s
  | .emptyList => "()"
  | .cons a d => "(" ++ lobString a ++ consTailString d ++ ")"
  | .vec es => "[" ++ lobListString es ++ "]"
  | .structv es => "\x7b" ++ lobListString es ++ "\x7d"
  | .closure c _ => "#[function " ++ c.name ++ "]"
  | .prim p => "#[primitive-function " ++ p ++ "]"
  | .applyFn => "#[function apply (<function> <any>* <list>)]"
  | .codev _ => "#[code]"

def consTailString : LOB → String
  | .emptyList => ""
  | .cons a d => " " ++ lobString a ++ consTailString d
  | x => " . " ++ lobString x

def lobListString : List LOB → String
  | [] => ""
  | [x] => lobString x
  | x :: rest => lobString x ++ " " ++ lobListString rest
end

/-- ArgcError (part_000): argument count mismatch message. -/
def argcErrorMsg (name : String) (expected : String) (got : Nat) : String :=
  "Wrong number of arguments to " ++ name ++ " (expected " ++ expected ++
    ", got " ++ toString got ++ ")"

/-- ArgTypeError (part_000): argument type mismatch message. -/
def argTypeErrorMsg (expected : String) (nArg : Nat) (arg : LOB) : String :=
  "Argument " ++ toString nArg ++ " is not of type <" ++ expected ++ ">: " ++
    lobString arg

/-! ## Opcodes (part_002, const block) -/

def opcodeBad : Nat := 0
def opcodeLiteral : Nat := 1
def opcodeLocal : Nat := 2
def opcodeJumpFalse : Nat := 3
def opcodeJump : Nat := 4
def opcodeTailCall : Nat := 5
def opcodeCall : Nat := 6
def opcodeReturn : Nat := 7
def opcodeClosure : Nat := 8
def opcodePop : Nat := 9
def opcodeGlobal : Nat := 10
def opcodeDefGlobal : Nat := 11
def opcodeSetLocal : Nat := 12
def opcodeUse : Nat := 13
def opcodeDefMac : Nat := 14
def opcodeVector : Nat := 15
def opcodeStruct : Nat := 16
def opcodeUndefGlobal : Nat := 17

/-! ## Global environment (spec section 4.2) -/

/-- Modelled from the spec: the globals map symbol-text to bound value
(the Go source stores the binding in the interned symbol cell, whose
definition is not under src/); def-global (re)binds, undef-global
removes, get-global returns none when absent. -/
abbrev Globals := List (String × LOB)

def getGlobal (g : Globals) (s : String) : Option LOB :=
  match g.find? (fun kv => kv.1 = s) with
  | some kv => some kv.2
  | none => none

def defGlobal (g : Globals) (s : String) (v : LOB) : Globals :=
  (s, v) :: g.filter (fun kv => kv.1 ≠ s)

def undefGlobal (g : Globals) (s : String) : Globals :=
  g.filter (fun kv => kv.1 ≠ s)

/-- Modelled from the spec: toSymbol (referenced by buildFrame, its
definition is not under src/) canonicalizes a symbol, keyword or string
into the symbol name; a keyword is a symbol whose text ends in a colon
(spec section 3), so that trailing colon is stripped. Anything else is
an error. -/
def toSymbol : LOB → Except String String
  | .sym s => .ok s
  | .kw s => .ok (s.dropRight 1)
  | .strv s => .ok s
  | x => .error ("The type " ++ lobString x ++ " cannot be converted to <symbol>")

/-! ## buildFrame (part_000, lines 307-379) -/

/-- Rendering of the called function in arity error messages
(LFunction.String in part_000, without the external declarations
table). -/
def funString (c : Code) : String :=
  if c.name = "" then "#[function]" else "#[function " ++ c.name ++ "]"

/-- Inner scan of the keyword-binding loop (part_000, lines 360-366):
the index of the first keys-vector entry that is the interned symbol of
the key; non-symbol entries never compare equal. -/
def keyIndex (key : String) : List LOB → Nat → Option Nat
  | [], _ => none
  | q :: rest, j =>
    match q with
    | .sym t => if t = key then some j else keyIndex key rest (j + 1)
    | _ => keyIndex key rest (j + 1)

/-- Keyword-argument loop of buildFrame (part_000, lines 354-370):
consume the extra arguments two at a time as (key, value); each key must
name a slot in the first `extra` entries of the keys vector, in which
case that slot of `el` is overwritten (so a repeated key keeps its last
value); an unknown key is an error. The flat bindings slice has even
length (checked by the caller), so the one-element case is unreachable
and returns `el` unchanged. -/
def assignKeys (ks : List LOB) (extra : Nat) (expectedArgc : Nat)
    (el : List LOB) : List LOB → Except String (List LOB)
  | [] => .ok el
  | [_] => .ok el
  | k :: v :: rest =>
    match toSymbol k with
    | .error _ => .error ("Bad keyword argument: " ++ lobString k)
    | .ok key =>
      match keyIndex key (ks.take extra) 0 with
      | some j => assignKeys ks extra expectedArgc (el.set (expectedArgc + j) v) rest
      | none => .error ("Undefined keyword argument: " ++ key)

/-- buildFrame (part_000, lines 307-379). The operand stack is modelled
relatively: `stack` lists the cells from `sp` upward, so the Go slice
stack[sp : sp+argc] is `stack.take argc`. Go's copy into a fixed-size
slice truncates silently, hence the `List.take totalArgc` in the
optional-parameters branch. -/
def buildFrame (env : Option Frame) (pc : Nat) (ops : List Nat)
    (funCode : Code) (funFrame : Option Frame) (argc : Nat)
    (stack : List LOB) : Except String Frame :=
  let expectedArgc := funCode.argc
  match funCode.defaults with
  | none =>
    if argc ≠ expectedArgc then
      .error ("Wrong number of args to " ++ funString funCode ++
        " (expected " ++ toString expectedArgc ++ ", got " ++ toString argc ++ ")")
    else
      .ok (Frame.mk funFrame env ops (stack.take argc) (some funCode) pc)
  | some defaults =>
    let rest := defaults.length = 0
    let extra := if rest then 1 else defaults.length
    if argc < expectedArgc then
      .error ("Wrong number of args to " ++ funString funCode ++
        " (expected at least " ++ toString expectedArgc ++ ", got " ++ toString argc ++ ")")
    else
      let totalArgc := expectedArgc + extra
      if rest then
        let restElements := (stack.drop expectedArgc).take (argc - expectedArgc)
        .ok (Frame.mk funFrame env ops
          (stack.take expectedArgc ++ [listFromValues restElements]) (some funCode) pc)
      else
        match funCode.keys with
        | some ks =>
          let bindings := (stack.drop expectedArgc).take (argc - expectedArgc)
          if bindings.length % 2 ≠ 0 then
            .error ("Bad keyword argument(s): " ++ lobListString bindings)
          else
            let el0 := stack.take expectedArgc ++ defaults
            match assignKeys ks extra expectedArgc el0 bindings with
            | .ok el => .ok (Frame.mk funFrame env ops el (some funCode) pc)
            | .error e => .error e
        | none =>
          let el := (stack.take argc ++ defaults.drop (argc - expectedArgc)).take totalArgc
          .ok (Frame.mk funFrame env ops el (some funCode) pc)

/-- addContext (part_000, lines 381-386): decorate a surfaced error with
the current frame code name, as a bracketed prefix. -/
def addContext (env : Frame) (err : String) : String :=
  match env.code with
  | none => err
  | some c => if c.name = "" then err else "[" ++ c.name ++ "] " ++ err

/-! ## The virtual machine (part_000, VM.exec, lines 388-656)

The downward-growing operand stack is modelled relatively: the list
head is `stack[sp]`, pushing conses, and the Go slice
`stack[sp : sp+n]` is `List.take n`.  The package-global constants
array is the `pool` field; the global bindings and the macro table are
the `globals` and `macs` fields.  The host interrupt flag
(`checkInterrupt`) is modelled as never set: the model is
single-threaded and no driver raises it. -/

structure VMState where
  stack : List LOB
  env : Frame
  ops : List Nat
  pc : Nat
  globals : Globals
  macs : Globals
  pool : List LOB

/-- Outcome of one iteration of the VM loop: continue, finish with a
value, surface a raw (not yet context-decorated) error, or `stuck` for
situations where the Go code would crash rather than return an Ell
error (nil dereference, argv of an improper list) and for apply-chain
fuel exhaustion. -/
inductive StepRes where
  | next : VMState → StepRes
  | done : LOB → Globals → StepRes
  | fail : String → StepRes
  | stuck : StepRes

/-- ops[pc] with the flat operand stream; out-of-range reads yield
opcodeBad and surface as a bad-instruction error (Go would panic). -/
def opAt (ops : List Nat) (pc : Nat) : Nat :=
  (ops.drop pc).headD 0

/-- Walk `i` levels out along the locals chain (the loop heading the
local/setlocal branches). -/
def frameAt : Frame → Nat → Option Frame
  | f, 0 => some f
  | .mk l _ _ _ _ _, i + 1 =>
    match l with
    | none => none
    | some g => frameAt g i

/-- Functional image of the setlocal mutation: rebuild the locals chain
with slot j of frame i replaced. Sharing of frames between closures is
not observable in any claim proved here. -/
def Frame.setLocalAt : Frame → Nat → Nat → LOB → Frame
  | .mk l p o el c q, 0, j, v => .mk l p o (el.set j v) c q
  | .mk l p o el c q, i + 1, j, v =>
    match l with
    | none => .mk l p o el c q
    | some g => .mk (some (g.setLocalAt i j v)) p o el c q

/-- Modelled from the spec: the primitive library is outside the core
(spec section 1, the core only needs the calling convention); this model
carries the one primitive the testable scenarios need, the variadic
numeric sum bound to the plus symbol. -/
def sumNums (k : Nat) (acc : Int) : List LOB → Except String LOB
  | [] => .ok (.num acc)
  | .num n :: rest => sumNums (k + 1) (acc + n) rest
  | x :: _ => .error (argTypeErrorMsg "number" k x)

def primApply (p : String) (argv : List LOB) : Except String LOB :=
  if p = "+" then sumNums 1 0 argv
  else .error ("Unknown primitive: " ++ p)

/-- Key comparison for struct bindings: interned atoms compare by text,
everything else by the identity that structural equality gives them
here. -/
def keyEq : LOB → LOB → Bool
  | .kw a, .kw b => a = b
  | .sym a, .sym b => a = b
  | .strv a, .strv b => a = b
  | .num a, .num b => a = b
  | _, _ => false

def structLookup : List LOB → LOB → LOB
  | k :: v :: rest, key => if keyEq k key then v else structLookup rest key
  | _, _ => .nullv

/-- Modelled from the spec: get, the accessor behind keyword-as-function
calls, is not under src/; on a struct it looks the key up in the
bindings (null when absent), and its exact behaviour on a non-struct is
left to the primitive (spec section 9), modelled as an argument error. -/
def getProp (obj key : LOB) : Except String LOB :=
  match obj with
  | .structv kvs => .ok (structLookup kvs key)
  | x => .error ("Cannot get " ++ lobString key ++ " from " ++ lobString x)

/-- Modelled from the spec: newStruct (not under src/) packs n stack
cells of alternating keys and values into a struct (spec section 4.4);
the VM discards its error value. -/
def newStructModel (cells : List LOB) : LOB :=
  .structv cells

/-- Call dispatch (part_000, lines 404-475, the opcodeCallAgain switch).
The fuel argument bounds Apply-to-Apply redispatch chains only. -/
def dispatchCall : Nat → VMState → LOB → Nat → Nat → StepRes
  | _, st, .prim p, argc, savedPc =>
    match primApply p (st.stack.take argc) with
    | .ok val => .next { st with stack := val :: st.stack.drop argc, pc := savedPc }
    | .error e => .fail e
  | _, st, .closure c fr, argc, savedPc =>
    match buildFrame (some st.env) savedPc st.ops c fr argc st.stack with
    | .ok f => .next { st with stack := st.stack.drop argc, env := f, ops := c.ops, pc := 0 }
    | .error e => .fail e
  | afuel, st, .applyFn, argc, savedPc =>
    if argc < 2 then .fail (argcErrorMsg "apply" "2+" argc)
    else
      let f := st.stack.headD .nullv
      let args := st.stack.getD (argc - 1) .nullv
      if ¬ isList args then .fail (argTypeErrorMsg "list" argc args)
      else
        match properElems args with
        | none => .stuck
        | some es =>
          let mid := (st.stack.drop 1).take (argc - 2)
          match afuel with
          | 0 => .stuck
          | afuel2 + 1 =>
            dispatchCall afuel2 { st with stack := mid ++ es ++ st.stack.drop argc }
              f (argc - 2 + es.length) savedPc
  | _, st, .kw t, argc, savedPc =>
    if argc ≠ 1 then .fail (argcErrorMsg t "1" argc)
    else
      match getProp (st.stack.headD .nullv) (.kw t) with
      | .ok v => .next { st with stack := v :: st.stack.drop 1, pc := savedPc }
      | .error e => .fail e
  | _, _, fn, _, _ => .fail ("Not a function: " ++ lobString fn)

/-- Tail-call dispatch (part_000, lines 515-587, the opcodeTailCallAgain
switch): a closure frame is built over the current frame's previous
link; a primitive or keyword result pops back to the caller, finishing
the run when there is none. -/
def dispatchTailCall : Nat → VMState → LOB → Nat → StepRes
  | _, st, .prim p, argc =>
    match primApply p (st.stack.take argc) with
    | .ok val =>
      match st.env.previous with
      | none => .done val st.globals
      | some prev =>
        .next { st with stack := val :: st.stack.drop argc, pc := st.env.pc,
                        ops := st.env.ops, env := prev }
    | .error e => .fail e
  | _, st, .closure c fr, argc =>
    match buildFrame st.env.previous st.env.pc st.env.ops c fr argc st.stack with
    | .ok f => .next { st with stack := st.stack.drop argc, env := f, ops := c.ops, pc := 0 }
    | .error e => .fail e
  | afuel, st, .applyFn, argc =>
    if argc < 2 then .fail (argcErrorMsg "apply" "2+" argc)
    else
      let f := st.stack.headD .nullv
      let args := st.stack.getD (argc - 1) .nullv
      if ¬ isList args then .fail (argTypeErrorMsg "list" argc args)
      else
        match properElems args with
        | none => .stuck
        | some es =>
          let mid := (st.stack.drop 1).take (argc - 2)
          match afuel with
          | 0 => .stuck
          | afuel2 + 1 =>
            dispatchTailCall afuel2 { st with stack := mid ++ es ++ st.stack.drop argc }
              f (argc - 2 + es.length)
  | _, st, .kw t, argc =>
    if argc ≠ 1 then .fail (argcErrorMsg t "1" argc)
    else
      match getProp (st.stack.headD .nullv) (.kw t) with
      | .ok v =>
        match st.env.previous with
        | none => .done v st.globals
        | some prev =>
          .next { st with stack := v :: st.stack.drop 1, pc := st.env.pc,
                          ops := st.env.ops, env := prev }
      | .error e => .fail e
  | _, _, fn, _ => .fail ("Not a function:" ++ lobString fn)

/-- One iteration of the VM loop (part_000, lines 402-655), in the
branch order of the source if-chain. -/
def stepVM (afuel : Nat) (st : VMState) : StepRes :=
  let op := opAt st.ops st.pc
  if op = opcodeCall then
    dispatchCall afuel { st with stack := st.stack.tail } (st.stack.headD .nullv)
      (opAt st.ops (st.pc + 1)) (st.pc + 2)
  else if op = opcodeGlobal then
    match st.pool.getD (opAt st.ops (st.pc + 1)) .nullv with
    | .sym s =>
      match getGlobal st.globals s with
      | none => .fail ("Undefined symbol: " ++ s)
      | some v => .next { st with stack := v :: st.stack, pc := st.pc + 2 }
    | c => .fail ("Undefined symbol: " ++ lobString c)
  else if op = opcodeLocal then
    match frameAt st.env (opAt st.ops (st.pc + 1)) with
    | some f =>
      .next { st with stack := f.elements.getD (opAt st.ops (st.pc + 2)) .nullv :: st.stack,
                      pc := st.pc + 3 }
    | none => .stuck
  else if op = opcodeJumpFalse then
    match st.stack.headD .nullv with
    | .boolv false => .next { st with stack := st.stack.tail, pc := st.pc + opAt st.ops (st.pc + 1) }
    | _ => .next { st with stack := st.stack.tail, pc := st.pc + 2 }
  else if op = opcodePop then
    .next { st with stack := st.stack.tail, pc := st.pc + 1 }
  else if op = opcodeTailCall then
    dispatchTailCall afuel { st with stack := st.stack.tail } (st.stack.headD .nullv)
      (opAt st.ops (st.pc + 1))
  else if op = opcodeLiteral then
    .next { st with stack := st.pool.getD (opAt st.ops (st.pc + 1)) .nullv :: st.stack,
                    pc := st.pc + 2 }
  else if op = opcodeSetLocal then
    .next { st with env := st.env.setLocalAt (opAt st.ops (st.pc + 1))
                      (opAt st.ops (st.pc + 2)) (st.stack.headD .nullv),
                    pc := st.pc + 3 }
  else if op = opcodeClosure then
    match st.pool.getD (opAt st.ops (st.pc + 1)) .nullv with
    | .codev c => .next { st with stack := .closure c (some st.env) :: st.stack, pc := st.pc + 2 }
    | _ => .stuck
  else if op = opcodeReturn then
    match st.env.previous with
    | none => .done (st.stack.headD .nullv) st.globals
    | some prev => .next { st with ops := st.env.ops, pc := st.env.pc, env := prev }
  else if op = opcodeJump then
    .next { st with pc := st.pc + opAt st.ops (st.pc + 1) }
  else if op = opcodeDefGlobal then
    match st.pool.getD (opAt st.ops (st.pc + 1)) .nullv with
    | .sym s =>
      .next { st with globals := defGlobal st.globals s (st.stack.headD .nullv), pc := st.pc + 2 }
    | _ => .stuck
  else if op = opcodeUndefGlobal then
    match st.pool.getD (opAt st.ops (st.pc + 1)) .nullv with
    | .sym s => .next { st with globals := undefGlobal st.globals s, pc := st.pc + 2 }
    | _ => .stuck
  else if op = opcodeDefMac then
    match st.pool.getD (opAt st.ops (st.pc + 1)) .nullv with
    | .sym s =>
      .next { st with macs := defGlobal st.macs s (st.stack.headD .nullv),
                      stack := .sym s :: st.stack.tail, pc := st.pc + 2 }
    | _ => .stuck
  else if op = opcodeUse then
    match st.pool.getD (opAt st.ops (st.pc + 1)) .nullv with
    | .sym s => .next { st with stack := .sym s :: st.stack, pc := st.pc + 2 }
    | _ => .stuck
  else if op = opcodeVector then
    let vlen := opAt st.ops (st.pc + 1)
    .next { st with stack := .vec (st.stack.take vlen) :: st.stack.drop vlen, pc := st.pc + 2 }
  else if op = opcodeStruct then
    let vlen := opAt st.ops (st.pc + 1)
    .next { st with stack := newStructModel (st.stack.take vlen) :: st.stack.drop vlen,
                    pc := st.pc + 2 }
  else
    .fail ("Bad instruction: " ++ toString op)

/-- Final outcome of a run. -/
inductive RunRes where
  | ok : LOB → Globals → RunRes
  | err : String → RunRes
  | timeout : RunRes

/-- The VM loop: on an error the loop unwinds immediately, returning the
error decorated with the current frame context (every error site of the
source wraps with addContext before returning, and the current frame is
never updated earlier in the same iteration). -/
def runVM : Nat → VMState → RunRes
  | 0, _ => .timeout
  | fuel + 1, st =>
    match stepVM fuel st with
    | .next st2 => runVM fuel st2
    | .done v g => .ok v g
    | .fail msg => .err (addContext st.env msg)
    | .stuck => .timeout

/-- Initial state of VM.exec (part_000, lines 388-398): a fresh root
frame holding the arguments, pc 0 on the given code. -/
def initState (code : Code) (args : List LOB) (g : Globals) (pool : List LOB) : VMState :=
  { stack := [], env := Frame.mk none none [] args none 0, ops := code.ops,
    pc := 0, globals := g, macs := [], pool := pool }

/-- VM.exec entry: empty code is rejected before the loop starts. -/
def execVM (fuel : Nat) (code : Code) (args : List LOB) (g : Globals)
    (pool : List LOB) : RunRes :=
  if code.ops.length = 0 then
    .err (addContext (Frame.mk none none [] args none 0) "No code to execute")
  else runVM fuel (initState code args g pool)

/-! ## Bytecode emission (part_002, emit methods) and the compiler
(part_000, lines 1019-1448).

Compile-time errors: the source's syntaxError wraps the offending form
(newError(expr)); fuel exhaustion of the model is a separate
constructor so that it is never mistaken for acceptance or for a
syntax error. -/

inductive CErr where
  | synErr : LOB → CErr
  | oof : CErr

/-- Modelled from the spec: putConstant (not under src/) maintains the
append-only constants pool (spec section 3 invariants): the value is
appended and its index returned. -/
def putConstant (pool : List LOB) (v : LOB) : List LOB × Nat :=
  (pool ++ [v], pool.length)

def Code.appendOps : Code → List Nat → Code
  | .mk n o a d k, xs => .mk n (o ++ xs) a d k

def Code.emitLiteral (c : Code) (pool : List LOB) (v : LOB) : Code × List LOB :=
  let r := putConstant pool v
  (c.appendOps [opcodeLiteral, r.2], r.1)

def Code.emitGlobal (c : Code) (pool : List LOB) (s : LOB) : Code × List LOB :=
  let r := putConstant pool s
  (c.appendOps [opcodeGlobal, r.2], r.1)

def Code.emitCall (c : Code) (argc : Nat) : Code :=
  c.appendOps [opcodeCall, argc]

def Code.emitReturn (c : Code) : Code :=
  c.appendOps [opcodeReturn]

def Code.emitTailCall (c : Code) (argc : Nat) : Code :=
  c.appendOps [opcodeTailCall, argc]

def Code.emitPop (c : Code) : Code :=
  c.appendOps [opcodePop]

def Code.emitLocal (c : Code) (i j : Nat) : Code :=
  c.appendOps [opcodeLocal, i, j]

def Code.emitSetLocal (c : Code) (i j : Nat) : Code :=
  c.appendOps [opcodeSetLocal, i, j]

def Code.emitDefGlobal (c : Code) (pool : List LOB) (s : LOB) : Code × List LOB :=
  let r := putConstant pool s
  (c.appendOps [opcodeDefGlobal, r.2], r.1)

def Code.emitUndefGlobal (c : Code) (pool : List LOB) (s : LOB) : Code × List LOB :=
  let r := putConstant pool s
  (c.appendOps [opcodeUndefGlobal, r.2], r.1)

def Code.emitDefMac (c : Code) (pool : List LOB) (s : LOB) : Code × List LOB :=
  let r := putConstant pool s
  (c.appendOps [opcodeDefMac, r.2], r.1)

def Code.emitClosure (c : Code) (pool : List LOB) (inner : LOB) : Code × List LOB :=
  let r := putConstant pool inner
  (c.appendOps [opcodeClosure, r.2], r.1)

/-- emitJumpFalse returns the location just after the jump opcode, the
operand cell to be back-patched. -/
def Code.emitJumpFalse (c : Code) (offset : Nat) : Code × Nat :=
  let loc := c.ops.length + 1
  (c.appendOps [opcodeJumpFalse, offset], loc)

def Code.emitJump (c : Code) (offset : Nat) : Code × Nat :=
  let loc := c.ops.length + 1
  (c.appendOps [opcodeJump, offset], loc)

def Code.setJumpLocation (c : Code) (loc : Nat) : Code :=
  match c with
  | .mk n o a d k => .mk n (o.set loc (o.length - loc + 1)) a d k

def Code.emitVector (c : Code) (alen : Nat) : Code :=
  c.appendOps [opcodeVector, alen]

def Code.emitStruct (c : Code) (slen : Nat) : Code :=
  c.appendOps [opcodeStruct, slen]

def Code.emitUse (c : Code) (pool : List LOB) (s : LOB) : Code × List LOB :=
  let r := putConstant pool s
  (c.appendOps [opcodeUse, r.2], r.1)

/-- Inner loop of calculateLocation (part_000, lines 1029-1045):
position of the symbol within one parameter list. Interned symbols
compare by text. -/
def calcLocIn (s : LOB) : LOB → Nat → Option Nat
  | .cons a d, j =>
    (match a, s with
     | .sym x, .sym y => if x = y then some j else calcLocIn s d (j + 1)
     | _, _ => calcLocIn s d (j + 1))
  | _, _ => none

/-- calculateLocation: lexical address (frames out, slot index) of a
symbol in the compile-time environment, a list of parameter lists. -/
def calculateLocation (s : LOB) : LOB → Nat → Option (Nat × Nat)
  | .cons e rest, i =>
    match calcLocIn s e 0 with
    | some j => some (i, j)
    | none => calculateLocation s rest (i + 1)
  | _, _ => none

/-- AsIntValue: number to machine integer, error on anything else. -/
def AsIntValue : LOB → Except CErr Int
  | .num n => .ok n
  | x => .error (.synErr x)

def AsStringValue : LOB → Except CErr String
  | .strv s => .ok s
  | x => .error (.synErr x)

/-- loadOps (part_002, lines 227-354): parse the textual bytecode form
into ops. The triple keeps the state built so far because the source
appends into the code object and its caller (and the closure case for a
nested code) may discard the returned error. The legacy closure
parameter form (a bare count, negative when there are defaults) and the
4-element (name argc defaults keys) form are both read. -/
def loadOps : Nat → Code → List LOB → LOB → Code × List LOB × Option CErr
  | 0, c, pool, _ => (c, pool, some .oof)
  | fuel + 1, c, pool, lst =>
    match lst with
    | .emptyList => (c, pool, none)
    | .cons instr rest =>
      match car instr with
      | .sym "closure" =>
        let lstFunc := cadr instr
        (match car lstFunc with
         | .sym "func" =>
           let lstFunc2 := cdr lstFunc
           let funcParams := car lstFunc2
           let parsed : Except CErr (String × Nat × Option (List LOB) × Option (List LOB)) :=
             if isSymbol funcParams then
               -- legacy form, just the argc; AsIntValue of a symbol errors
               match AsIntValue funcParams with
               | .error e => .error e
               | .ok a =>
                 if a < 0 then .ok ("", (-a - 1).toNat, some [], none)
                 else .ok ("", a.toNat, none, none)
             else if isList funcParams ∧ llen funcParams = 4 then
               match AsStringValue (car funcParams) with
               | .error _ => .error (.synErr funcParams)
               | .ok name =>
                 match AsIntValue (cadr funcParams) with
                 | .error _ => .error (.synErr funcParams)
                 | .ok a =>
                   let dflts :=
                     match caddr funcParams with
                     | .vec es => some es
                     | _ => none
                   let ky :=
                     match car (cdddr funcParams) with
                     | .vec es => some es
                     | _ => none
                   .ok (name, a.toNat, dflts, ky)
             else .error (.synErr funcParams)
           match parsed with
           | .error e => (c, pool, some e)
           | .ok (name, a, dflts, ky) =>
             -- the error of the nested loadOps is discarded by the source
             let child := loadOps fuel (Code.mk name [] a dflts ky) pool (cdr lstFunc2)
             let r := c.emitClosure child.2.1 (.codev child.1)
             loadOps fuel r.1 r.2 rest
         | _ => (c, pool, some (.synErr instr)))
      | .sym "literal" =>
        let r := c.emitLiteral pool (cadr instr)
        loadOps fuel r.1 r.2 rest
      | .sym "local" =>
        (match AsIntValue (cadr instr), AsIntValue (caddr instr) with
         | .ok i, .ok j => loadOps fuel (c.emitLocal i.toNat j.toNat) pool rest
         | .error e, _ => (c, pool, some e)
         | _, .error e => (c, pool, some e))
      | .sym "setlocal" =>
        (match AsIntValue (cadr instr), AsIntValue (caddr instr) with
         | .ok i, .ok j => loadOps fuel (c.emitSetLocal i.toNat j.toNat) pool rest
         | .error e, _ => (c, pool, some e)
         | _, .error e => (c, pool, some e))
      | .sym "global" =>
        (match cadr instr with
         | .sym s =>
           let r := c.emitGlobal pool (.sym s)
           loadOps fuel r.1 r.2 rest
         | _ => (c, pool, some (.synErr instr)))
      | .sym "undefine" =>
        let r := c.emitUndefGlobal pool (cadr instr)
        loadOps fuel r.1 r.2 rest
      | .sym "jump" =>
        (match AsIntValue (cadr instr) with
         | .ok loc => loadOps fuel ((c.emitJump loc.toNat).1) pool rest
         | .error e => (c, pool, some e))
      | .sym "jumpfalse" =>
        (match AsIntValue (cadr instr) with
         | .ok loc => loadOps fuel ((c.emitJumpFalse loc.toNat).1) pool rest
         | .error e => (c, pool, some e))
      | .sym "call" =>
        (match AsIntValue (cadr instr) with
         | .ok a => loadOps fuel (c.emitCall a.toNat) pool rest
         | .error e => (c, pool, some e))
      | .sym "tailcall" =>
        (match AsIntValue (cadr instr) with
         | .ok a => loadOps fuel (c.emitTailCall a.toNat) pool rest
         | .error e => (c, pool, some e))
      | .sym "return" => loadOps fuel c.emitReturn pool rest
      | .sym "pop" => loadOps fuel c.emitPop pool rest
      | .sym "defglobal" =>
        let r := c.emitDefGlobal pool (cadr instr)
        loadOps fuel r.1 r.2 rest
      | .sym "defmacro" =>
        let r := c.emitDefMac pool (cadr instr)
        loadOps fuel r.1 r.2 rest
      | .sym "use" =>
        let r := c.emitUse pool (cadr instr)
        loadOps fuel r.1 r.2 rest
      | _ => (c, pool, some (.synErr instr))
    | x => (c, pool, some (.synErr x))

/-- compileUse (part_000, lines 1432-1444). -/
def compileUse (c : Code) (pool : List LOB) (rest : LOB) :
    Except CErr (Code × List LOB) :=
  if llen rest ≠ 1 then .error (.synErr (.cons (.sym "use") rest))
  else
    let s := car rest
    if isSymbol s then
      .ok (c.emitUse pool s)
    else .error (.synErr rest)

/-- Optional-parameter vector of a lambda list (part_000, lines
1233-1255): each entry is a symbol or a (symbol default) pair; returns
the symbols and the defaults. `tmp` is the lambda-list tail reported in
syntax errors. -/
def parseDefaultsVec (tmp : LOB) : List LOB → Except CErr (List LOB × List LOB)
  | [] => .ok ([], [])
  | entry :: rest =>
    let sd : LOB × LOB :=
      match entry with
      | .cons s next =>
        (match next with
         | .cons d _ => (s, d)
         | _ => (s, .nullv))
      | s => (s, .nullv)
    if isSymbol sd.1 then
      match parseDefaultsVec tmp rest with
      | .ok r => .ok (sd.1 :: r.1, sd.2 :: r.2)
      | .error e => .error e
    else .error (.synErr tmp)

/-- Keyword-parameter map of a lambda list (part_000, lines 1256-1275):
the flat bindings alternate symbol and default; a quoted symbol is
unwrapped. Returns (syms, keys, defaults). -/
def parseKeysMap (tmp : LOB) : List LOB → Except CErr (List LOB × List LOB × List LOB)
  | [] => .ok ([], [], [])
  | s0 :: defValue :: rest =>
    let s :=
      match s0 with
      | .cons (.sym "quote") (.cons q _) => q
      | x => x
    if isSymbol s then
      match parseKeysMap tmp rest with
      | .ok r => .ok (s :: r.1, s :: r.2.1, defValue :: r.2.2)
      | .error e => .error e
    else .error (.synErr tmp)
  | _ :: [] => .error (.synErr tmp)

/-- Lambda-list scan of compileLambda (part_000, lines 1225-1291):
count the leading plain symbols, then an optional defaults vector or
keyword map (which must end the list), then an improper-list tail as a
rest parameter. Returns (argc, syms, defaults, keys). -/
def parseLambdaList : LOB → Nat → List LOB →
    Except CErr (Nat × List LOB × Option (List LOB) × Option (List LOB))
  | .cons a d, argc, syms =>
    (match a with
     | .vec es =>
       (match d with
        | .emptyList =>
          match parseDefaultsVec (.cons a d) es with
          | .ok r => .ok (argc, syms ++ r.1, some r.2, none)
          | .error e => .error e
        | _ => .error (.synErr (.cons a d)))
     | .structv kvs =>
       (match d with
        | .emptyList =>
          match parseKeysMap (.cons a d) kvs with
          | .ok r => .ok (argc, syms ++ r.1, some r.2.2, some r.2.1)
          | .error e => .error e
        | _ => .error (.synErr (.cons a d)))
     | .sym _ => parseLambdaList d (argc + 1) (syms ++ [a])
     | _ => .error (.synErr (.cons a d)))
  | .emptyList, argc, syms => .ok (argc, syms, none, none)
  | tmp, argc, syms =>
    -- rest parameter: the tail symbol is added without incrementing argc
    if isSymbol tmp then .ok (argc, syms ++ [tmp], some [], none)
    else .error (.synErr tmp)

mutual
/-- compileExpr (part_000, lines 1047-1222): single-pass emission in a
context (isTail, ignoreResult). The extendedInstructions flag (defined
outside src/) gates primop instructions of an older opcode numbering
absent from the VM modelled here; it is modelled false, so the
compilePrimopCall attempt in compileFuncall is omitted. -/
def compileExpr : Nat → Code → List LOB → LOB → LOB → Bool → Bool → String →
    Except CErr (Code × List LOB)
  | 0, _, _, _, _, _, _, _ => .error .oof
  | fuel + 1, c, pool, env, expr, isTail, ignoreResult, context =>
    if isSymbol expr then
      let r :=
        match calculateLocation expr env 0 with
        | some ij => (c.emitLocal ij.1 ij.2, pool)
        | none => c.emitGlobal pool expr
      let r2 :=
        if ignoreResult then (r.1.emitPop, r.2)
        else if isTail then (r.1.emitReturn, r.2)
        else r
      .ok r2
    else
      match expr with
      | .cons fn rest =>
        let lstlen := llen expr
        if lstlen = 0 then .error (.synErr expr)
        else
          (match fn with
           | .sym "quote" =>
             if lstlen ≠ 2 then .error (.synErr expr)
             else if ignoreResult then .ok (c, pool)
             else
               let r := c.emitLiteral pool (cadr expr)
               .ok (if isTail then (r.1.emitReturn, r.2) else r)
           | .sym "begin" =>
             compileSequence fuel c pool env rest isTail ignoreResult context
           | .sym "if" =>
             if lstlen = 3 ∨ lstlen = 4 then
               compileIfElse fuel c pool env (cadr expr) (caddr expr) (cdddr expr)
                 isTail ignoreResult context
             else .error (.synErr expr)
           | .sym "define" =>
             if lstlen < 3 then .error (.synErr expr)
             else
               let s0 := cadr expr
               let v0 := caddr expr
               let sv : Except CErr (LOB × LOB) :=
                 if isSymbol s0 then .ok (s0, v0)
                 else if isPair s0 ∧ llen s0 ≥ 1 then
                   .ok (car s0, .cons (.sym "lambda") (.cons (cdr s0) (.cons v0 .emptyList)))
                 else .error (.synErr expr)
               match sv with
               | .error e => .error e
               | .ok sv2 =>
                 match compileExpr fuel c pool env sv2.2 false false (lobString sv2.1) with
                 | .error e => .error e
                 | .ok r =>
                   let r2 := r.1.emitDefGlobal r.2 sv2.1
                   if ignoreResult then .ok (r2.1.emitPop, r2.2)
                   else if isTail then .ok (r2.1.emitReturn, r2.2)
                   else .ok r2
           | .sym "define-macro" =>
             if lstlen ≠ 3 then .error (.synErr expr)
             else
               let s0 := cadr expr
               if ¬ isSymbol s0 then .error (.synErr expr)
               else
                 match compileExpr fuel c pool env (caddr expr) false false (lobString s0) with
                 | .error e => .error e
                 | .ok r =>
                   let r2 := r.1.emitDefMac r.2 s0
                   if ignoreResult then .ok (r2.1.emitPop, r2.2)
                   else if isTail then .ok (r2.1.emitReturn, r2.2)
                   else .ok r2
           | .sym "lambda" =>
             if lstlen < 3 then .error (.synErr expr)
             else
               compileLambda fuel c pool env (cadr expr) (cddr expr)
                 isTail ignoreResult context
           | .sym "set!" =>
             if lstlen ≠ 3 then .error (.synErr expr)
             else
               let s0 := cadr expr
               if ¬ isSymbol s0 then .error (.synErr expr)
               else
                 match compileExpr fuel c pool env (caddr expr) false false context with
                 | .error e => .error e
                 | .ok r =>
                   let r2 :=
                     match calculateLocation s0 env 0 with
                     | some ij => (r.1.emitSetLocal ij.1 ij.2, r.2)
                     | none => r.1.emitDefGlobal r.2 s0 -- source comment: fix, should be SetGlobal
                   if ignoreResult then .ok (r2.1.emitPop, r2.2)
                   else if isTail then .ok (r2.1.emitReturn, r2.2)
                   else .ok r2
           | .sym "lap" =>
             let r := loadOps fuel c pool rest
             (match r.2.2 with
              | some e => .error e
              | none => .ok (r.1, r.2.1))
           | .sym "use" => compileUse c pool rest
           | _ => compileFuncall fuel c pool env fn rest isTail ignoreResult context)
      | .vec es =>
        -- vector literal: elements compiled in reverse index order
        (match compileRevList fuel c pool env es.reverse context with
         | .error e => .error e
         | .ok r => .ok (r.1.emitVector es.length, r.2))
      | .structv kvs =>
        -- map literal: flat bindings compiled in reverse order
        (match compileRevList fuel c pool env kvs.reverse context with
         | .error e => .error e
         | .ok r => .ok (r.1.emitStruct kvs.length, r.2))
      | _ =>
        if ignoreResult then .ok (c, pool)
        else
          let r := c.emitLiteral pool expr
          .ok (if isTail then (r.1.emitReturn, r.2) else r)

/-- The downward loops of the vector and map literal branches: compile
the already-reversed elements in order, each non-tail and used. -/
def compileRevList : Nat → Code → List LOB → LOB → List LOB → String →
    Except CErr (Code × List LOB)
  | 0, _, _, _, _, _ => .error .oof
  | _ + 1, c, pool, _, [], _ => .ok (c, pool)
  | fuel + 1, c, pool, env, e :: es, context =>
    match compileExpr fuel c pool env e false false context with
    | .error err => .error err
    | .ok r => compileRevList fuel r.1 r.2 env es context

/-- compileSequence (part_000, lines 1308-1320). -/
def compileSequence : Nat → Code → List LOB → LOB → LOB → Bool → Bool → String →
    Except CErr (Code × List LOB)
  | 0, _, _, _, _, _, _, _ => .error .oof
  | fuel + 1, c, pool, env, exprs, isTail, ignoreResult, context =>
    match exprs with
    | .emptyList => .error (.synErr (.cons (.sym "begin") .emptyList))
    | .cons e1 .emptyList =>
      compileExpr fuel c pool env e1 isTail ignoreResult context
    | .cons e1 rest =>
      (match compileExpr fuel c pool env e1 false true context with
       | .error err => .error err
       | .ok r => compileSequence fuel r.1 r.2 env rest isTail ignoreResult context)
    | other =>
      -- improper body tail: the source loop exits on a non-list cdr and
      -- compiles its car (Null)
      compileExpr fuel c pool env (car other) isTail ignoreResult context

/-- compileFuncall (part_000, lines 1322-1353). -/
def compileFuncall : Nat → Code → List LOB → LOB → LOB → LOB → Bool → Bool → String →
    Except CErr (Code × List LOB)
  | 0, _, _, _, _, _, _, _, _ => .error .oof
  | fuel + 1, c, pool, env, fn, args, isTail, ignoreResult, context =>
    let argc := llen args
    if argc < 0 then .error (.synErr (.cons fn args))
    else
      match compileArgs fuel c pool env args context with
      | .error e => .error e
      | .ok r =>
        match compileExpr fuel r.1 r.2 env fn false false context with
        | .error e => .error e
        | .ok r2 =>
          if isTail then .ok (r2.1.emitTailCall argc.toNat, r2.2)
          else
            let r3 := (r2.1.emitCall argc.toNat, r2.2)
            if ignoreResult then .ok (r3.1.emitPop, r3.2)
            else .ok r3

/-- compileArgs (part_000, lines 1355-1364): arguments are compiled
last-to-first so the first argument ends nearest the stack top. The
non-list case is unreachable through compileFuncall (the length guard);
it mirrors the source loop ending on a NIL cdr. -/
def compileArgs : Nat → Code → List LOB → LOB → LOB → String →
    Except CErr (Code × List LOB)
  | 0, _, _, _, _, _ => .error .oof
  | fuel + 1, c, pool, env, args, context =>
    match args with
    | .cons a d =>
      (match compileArgs fuel c pool env d context with
       | .error e => .error e
       | .ok r => compileExpr fuel r.1 r.2 env a false false context)
    | _ => .ok (c, pool)

/-- compileLambda (part_000, lines 1224-1306): parse the lambda list,
compile the body in tail position against the extended environment, and
emit a closure over the new code object (named by the context). -/
def compileLambda : Nat → Code → List LOB → LOB → LOB → LOB → Bool → Bool → String →
    Except CErr (Code × List LOB)
  | 0, _, _, _, _, _, _, _, _ => .error .oof
  | fuel + 1, c, pool, env, args, body, isTail, ignoreResult, context =>
    match parseLambdaList args 0 [] with
    | .error e => .error e
    | .ok parsed =>
      let argsList := listFromValues parsed.2.1
      let newEnv := LOB.cons argsList env
      let lambdaCode := Code.mk context [] parsed.1 parsed.2.2.1 parsed.2.2.2
      match compileSequence fuel lambdaCode pool newEnv body true false context with
      | .error e => .error e
      | .ok r =>
        if ignoreResult then .ok (c, r.2)
        else
          let r2 := c.emitClosure r.2 (.codev r.1)
          if isTail then .ok (r2.1.emitReturn, r2.2)
          else .ok r2

/-- compileIfElse (part_000, lines 1404-1430) with back-patched jump
offsets. -/
def compileIfElse : Nat → Code → List LOB → LOB → LOB → LOB → LOB → Bool → Bool → String →
    Except CErr (Code × List LOB)
  | 0, _, _, _, _, _, _, _, _, _ => .error .oof
  | fuel + 1, c, pool, env, predicate, consequent, antecedentOptional, isTail, ignoreResult, context =>
    let antecedent :=
      match antecedentOptional with
      | .emptyList => LOB.nullv
      | x => car x
    match compileExpr fuel c pool env predicate false false context with
    | .error e => .error e
    | .ok r =>
      let rj := r.1.emitJumpFalse 0
      match compileExpr fuel rj.1 r.2 env consequent isTail ignoreResult context with
      | .error e => .error e
      | .ok r2 =>
        let rj2 := if ¬ isTail then r2.1.emitJump 0 else (r2.1, 0)
        let c3 := rj2.1.setJumpLocation rj.2
        match compileExpr fuel c3 r2.2 env antecedent isTail ignoreResult context with
        | .error e => .error e
        | .ok r3 =>
          if ¬ isTail then .ok (r3.1.setJumpLocation rj2.2, r3.2)
          else .ok r3
end

/-- compile (part_000, lines 1019-1027): fresh unnamed zero-arg code,
compile the expression non-tail with its result used, then the final
return. -/
def compile (fuel : Nat) (pool : List LOB) (expr : LOB) :
    Except CErr (Code × List LOB) :=
  match compileExpr fuel (Code.mk "" [] 0 none none) pool .emptyList expr false false "" with
  | .error e => .error e
  | .ok r => .ok (r.1.emitReturn, r.2)

/-! ## Quasiquote expansion (macro.go, lines 568-647)

The expander functions are parameterized by `me`, the mutually
recursive macroexpand entry point, so the theorems below hold for the
whole expander regardless of the macro table.  Macro errors: SyntaxError
(its constructor is not under src/) surfaces the syntax-error: keyword
carrying the offending form (spec section 4.3), while the plain Error
constructor produces a generic error: carrying only a message text
(data.go, Error with a non-keyword first argument). -/

inductive MErr where
  | synErr : LOB → MErr
  | genericErr : String → MErr

/-- expandQQList (macro.go, lines 606-647): walk the list items,
building the argument list of a concat form. A nonempty-list item
headed by the quasiquote symbol is rejected with a plain error; an
unquote or unquote-splicing item of length two has its payload
macro-expanded (inserted respectively spliced); any other nonempty-list
item recurses; every other item is quoted. -/
def expandQQItems (me : LOB → Except MErr LOB) : LOB → Except MErr (List LOB)
  | .cons item rest =>
    (match item with
     | .cons (.sym "quasiquote") _ =>
       .error (.genericErr "nested quasiquote not supported")
     | .cons (.sym "unquote") (.cons x .emptyList) =>
       (match me x with
        | .error e => .error e
        | .ok tmp =>
          match expandQQItems me rest with
          | .error e => .error e
          | .ok out => .ok ((LOB.cons (.sym "list") (.cons tmp .emptyList)) :: out))
     | .cons (.sym "unquote-splicing") (.cons x .emptyList) =>
       (match me x with
        | .error e => .error e
        | .ok tmp =>
          match expandQQItems me rest with
          | .error e => .error e
          | .ok out => .ok (tmp :: out))
     | .cons _ _ =>
       (match expandQQItems me item with
        | .error e => .error e
        | .ok sub =>
          let tmp := LOB.cons (.sym "concat") (listFromValues sub)
          match expandQQItems me rest with
          | .error e => .error e
          | .ok out => .ok ((LOB.cons (.sym "list") (.cons tmp .emptyList)) :: out))
     | _ =>
       match expandQQItems me rest with
       | .error e => .error e
       | .ok out =>
         .ok ((LOB.cons (.sym "quote") (.cons (.cons item .emptyList) .emptyList)) :: out))
  | _ => .ok []

def expandQQList (me : LOB → Except MErr LOB) (lst : LOB) : Except MErr LOB :=
  match expandQQItems me lst with
  | .error e => .error e
  | .ok out => .ok (.cons (.sym "concat") (listFromValues out))

/-- expandQQ (macro.go, lines 575-604): a nonempty list headed by
unquote of length two expands its payload; a list headed by
unquote-splicing is rejected outside a list context; other lists are
walked by expandQQList and the result re-expanded; a symbol is quoted,
a keyword and every other object stands for itself. In the source the
list type holds only proper lists, so an unquote head with a non-list
tail cannot occur. -/
def expandQQ (me : LOB → Except MErr LOB) (expr : LOB) : Except MErr LOB :=
  match expr with
  | .emptyList => .ok .emptyList
  | .cons (.sym "unquote") (.cons x .emptyList) => me x
  | .cons (.sym "unquote") (.cons _ _) => .error (.synErr expr)
  | .cons (.sym "unquote-splicing") (.cons _ _) =>
    .error (.genericErr "unquote-splicing can only occur in the context of a list ")
  | .cons _ _ =>
    (match expandQQList me expr with
     | .error e => .error e
     | .ok tmp => me tmp)
  | .sym s => .ok (.cons (.sym "quote") (.cons (.sym s) .emptyList))
  | other => .ok other

/-- expandQuasiquote (macro.go, lines 568-573). -/
def expandQuasiquote (me : LOB → Except MErr LOB) (expr : LOB) : Except MErr LOB :=
  if llen expr ≠ 2 then .error (.synErr expr)
  else expandQQ me (cadr expr)

/-! ## Support definitions for the theorems -/

/-- Expressions the compiler treats as self-evaluating constants: not a
symbol, pair, vector or map literal, so the final branch of compileExpr
emits them as literals. -/
def selfEval : LOB → Bool
  | .num _ => true
  | .strv _ => true
  | .boolv _ => true
  | .nullv => true
  | .emptyList => true
  | _ => false

/-- The flat (literal, index) pairs emitted for a block of constants
whose pool indices start at `base`. -/
def litOps (base : Nat) : List LOB → List Nat
  | [] => []
  | _ :: rest => opcodeLiteral :: base :: litOps (base + 1) rest

/-- Flatten (key, value) pairs into the keyword-argument layout on the
operand stack. -/
def flatPairs : List (String × LOB) → List LOB
  | [] => []
  | (k, v) :: rest => .sym k :: v :: flatPairs rest

/-- Value bound to a keyword slot: the value of the last pair naming the
key, or the default when no pair names it. -/
def lastValue (key : String) (dflt : LOB) : List (String × LOB) → LOB
  | [] => dflt
  | (k, v) :: rest => lastValue key (if k = key then v else dflt) rest

/-- The keyword-parameter section of a frame after binding: one slot per
key, each holding its last supplied value or its default. -/
def kwSlots (names : List String) (ds : List LOB) (pairs : List (String × LOB)) : List LOB :=
  (List.range names.length).map (fun j => lastValue (names.getD j "") (ds.getD j .nullv) pairs)

/-- A keyword-parameter code object. -/
def kwCodeOf (cname : String) (cops : List Nat) (req : Nat) (names : List String)
    (ds : List LOB) : Code :=
  Code.mk cname cops req (some ds) (some (names.map .sym))

/-- Proper list with a given tail, for stating list-shape hypotheses. -/
def listFromValuesTail : List LOB → LOB → LOB
  | [], t => t
  | v :: rest, t => .cons v (listFromValuesTail rest t)

/-- The identity expander, a concrete macroexpand stand-in for closed
instances of the quasiquote theorems. -/
def idExpander : LOB → Except MErr LOB := fun x => .ok x

/-- Concrete state used by the error-context counterexample: the next
instruction reads an unbound global inside a frame whose code is named
f. -/
def namedFrameCode : Code := Code.mk "f" [opcodeGlobal, 0] 0 none none

def namedFrameState : VMState :=
  { stack := [], env := Frame.mk none none [] [] (some namedFrameCode) 0,
    ops := [opcodeGlobal, 0], pc := 0, globals := [], macs := [],
    pool := [.sym "nosuch"] }

/-- Concrete state on which the Apply builtin is dispatched: the operand
stack already holds the callee and the argument list. -/
def applyDispatchState : VMState :=
  { stack := [.prim "+", listFromValues [.num 1, .num 2, .num 3, .num 4]],
    env := Frame.mk none none [] [] none 0,
    ops := [opcodeCall, 2, opcodeReturn], pc := 0, globals := [], macs := [], pool := [] }

/-- Concrete full run of (apply + (quote (1 2 3 4))): call of Apply with
two arguments followed by a return. -/
def applyRunState : VMState :=
  { stack := [.applyFn, .prim "+", listFromValues [.num 1, .num 2, .num 3, .num 4]],
    env := Frame.mk none none [] [] none 0,
    ops := [opcodeCall, 2, opcodeReturn], pc := 0, globals := [], macs := [], pool := [] }

/-- Concrete self-recursive tail call: a closure of no arguments whose
body tail-calls itself. -/
def tailLoopCode : Code := Code.mk "loop" [opcodeTailCall, 0] 0 none none

def tailLoopState : VMState :=
  { stack := [.closure tailLoopCode none],
    env := Frame.mk none none [opcodeReturn] [] none 0,
    ops := [opcodeTailCall, 0], pc := 0, globals := [], macs := [], pool := [] }

/-- Concrete nested-quasiquote form (quasiquote ((quasiquote b))). -/
def qqOffending : LOB := .cons (.sym "quasiquote") (.cons (.sym "b") .emptyList)

def qqNestedForm : LOB :=
  .cons (.sym "quasiquote") (.cons (.cons qqOffending .emptyList) .emptyList)

/-! ## Basic lemmas -/

@[simp] theorem Frame.locals_mk (l p : Option Frame) (o : List Nat) (e : List LOB)
    (c : Option Code) (q : Nat) : (Frame.mk l p o e c q).locals = l := rfl

@[simp] theorem Frame.previous_mk (l p : Option Frame) (o : List Nat) (e : List LOB)
    (c : Option Code) (q : Nat) : (Frame.mk l p o e c q).previous = p := rfl

@[simp] theorem Frame.frame_ops_mk (l p : Option Frame) (o : List Nat) (e : List LOB)
    (c : Option Code) (q : Nat) : (Frame.mk l p o e c q).ops = o := rfl

@[simp] theorem Frame.elements_mk (l p : Option Frame) (o : List Nat) (e : List LOB)
    (c : Option Code) (q : Nat) : (Frame.mk l p o e c q).elements = e := rfl

@[simp] theorem Frame.code_mk (l p : Option Frame) (o : List Nat) (e : List LOB)
    (c : Option Code) (q : Nat) : (Frame.mk l p o e c q).code = c := rfl

@[simp] theorem Frame.pc_mk (l p : Option Frame) (o : List Nat) (e : List LOB)
    (c : Option Code) (q : Nat) : (Frame.mk l p o e c q).pc = q := rfl

@[simp] theorem Code.name_mk (n : String) (o : List Nat) (a : Nat)
    (d k : Option (List LOB)) : (Code.mk n o a d k).name = n := rfl

@[simp] theorem Code.code_ops_mk (n : String) (o : List Nat) (a : Nat)
    (d k : Option (List LOB)) : (Code.mk n o a d k).ops = o := rfl

@[simp] theorem Code.argc_mk (n : String) (o : List Nat) (a : Nat)
    (d k : Option (List LOB)) : (Code.mk n o a d k).argc = a := rfl

@[simp] theorem Code.defaults_mk (n : String) (o : List Nat) (a : Nat)
    (d k : Option (List LOB)) : (Code.mk n o a d k).defaults = d := rfl

@[simp] theorem Code.keys_mk (n : String) (o : List Nat) (a : Nat)
    (d k : Option (List LOB)) : (Code.mk n o a d k).keys = k := rfl

@[simp] theorem Code.ops_appendOps (c : Code) (xs : List Nat) :
    (c.appendOps xs).ops = c.ops ++ xs := by
  cases c
  rfl

theorem depthOpt_some (f : Frame) : depthOpt (some f) = 1 + depthOpt f.previous := by
  cases f
  simp [depthOpt]

/-! ## Claim theorems -/

/-- C5: for every expression that compile accepts without error, the
returned code object's opcode sequence is non-empty and its final
emitted opcode is return (compile emits the final return after the body,
and nothing truncates the stream). -/
theorem compile_ends_with_return (fuel : Nat) (pool : List LOB) (expr : LOB)
    (c : Code) (pool2 : List LOB)
    (h : compile fuel pool expr = .ok (c, pool2)) :
    c.ops ≠ [] ∧ c.ops.getLast? = some opcodeReturn := by
  unfold compile at h
  cases hc : compileExpr fuel (Code.mk "" [] 0 none none) pool .emptyList expr false false "" with
  | error e => rw [hc] at h; cases h
  | ok r =>
    rw [hc] at h
    simp only [Except.ok.injEq, Prod.mk.injEq] at h
    obtain ⟨h1, _⟩ := h
    subst h1
    refine ⟨?_, ?_⟩
    · simp [Code.emitReturn]
    · simp [Code.emitReturn, List.getLast?_concat]

theorem compile_ends_with_return_witness :
    (Code.mk "" [opcodeLiteral, 0, opcodeReturn] 0 none none).ops ≠ [] ∧
    (Code.mk "" [opcodeLiteral, 0, opcodeReturn] 0 none none).ops.getLast? = some opcodeReturn :=
  compile_ends_with_return 1 [] (.num 3) _ [.num 3] rfl

/-- C3: calling a closure whose code has no defaults vector errors
exactly when the supplied count differs from argc; on a match the frame
holds exactly the argc stack values in order. -/
theorem buildFrame_no_defaults (env : Option Frame) (pc : Nat) (ops : List Nat)
    (cname : String) (cops : List Nat) (ac : Nat) (fr : Option Frame)
    (argc : Nat) (stack : List LOB) (hlen : argc ≤ stack.length) :
    (argc ≠ ac →
      ∃ e, buildFrame env pc ops (Code.mk cname cops ac none none) fr argc stack = .error e) ∧
    (argc = ac →
      buildFrame env pc ops (Code.mk cname cops ac none none) fr argc stack =
        .ok (Frame.mk fr env ops (stack.take argc) (some (Code.mk cname cops ac none none)) pc) ∧
      (stack.take argc).length = argc) := by
  constructor
  · intro hne
    unfold buildFrame
    simp [hne]
  · intro heq
    subst heq
    refine ⟨?_, ?_⟩
    · unfold buildFrame
      simp
    · simpa using hlen

theorem buildFrame_no_defaults_witness :
    buildFrame none 0 [] (Code.mk "g" [] 2 none none) none 2 [.num 1, .num 2, .num 9] =
      .ok (Frame.mk none none [] [.num 1, .num 2] (some (Code.mk "g" [] 2 none none)) 0) :=
  (((buildFrame_no_defaults none 0 [] "g" [] 2 none 2 [.num 1, .num 2, .num 9]
    (by decide)).2 rfl).1)

/-- C10: with optional parameters (non-empty defaults, no keys) the only
arity error is an argument count below the required one; any surplus
beyond required plus the defaults is silently truncated and the frame
keeps exactly required + defaults slots. -/
theorem buildFrame_optional_params (env : Option Frame) (pc : Nat) (ops : List Nat)
    (cname : String) (cops : List Nat) (ac : Nat) (ds : List LOB) (fr : Option Frame)
    (argc : Nat) (stack : List LOB) (hne : ds ≠ []) (hlen : argc ≤ stack.length) :
    (argc < ac →
      ∃ e, buildFrame env pc ops (Code.mk cname cops ac (some ds) none) fr argc stack = .error e) ∧
    (ac ≤ argc →
      buildFrame env pc ops (Code.mk cname cops ac (some ds) none) fr argc stack =
        .ok (Frame.mk fr env ops
          ((stack.take argc ++ ds.drop (argc - ac)).take (ac + ds.length))
          (some (Code.mk cname cops ac (some ds) none)) pc) ∧
      ((stack.take argc ++ ds.drop (argc - ac)).take (ac + ds.length)).length = ac + ds.length ∧
      (ac + ds.length ≤ argc →
        (stack.take argc ++ ds.drop (argc - ac)).take (ac + ds.length) =
          stack.take (ac + ds.length))) := by
  have hd0 : ¬ ds.length = 0 := by simpa using hne
  constructor
  · intro hlt
    unfold buildFrame
    simp [hd0, Nat.not_le_of_lt hlt, hlt]
  · intro hge
    refine ⟨?_, ?_, ?_⟩
    · unfold buildFrame
      simp [hd0, Nat.not_lt_of_le hge]
    · simp only [List.length_take, List.length_append, List.length_drop]
      omega
    · intro hbig
      have hdrop : ds.drop (argc - ac) = [] := by
        apply List.drop_eq_nil_of_le
        omega
      rw [hdrop, List.append_nil, List.take_take]
      congr 1
      omega

theorem buildFrame_optional_params_witness :
    buildFrame none 0 [] (Code.mk "h" [] 1 (some [.num 10, .num 20]) none) none 5
        [.num 1, .num 2, .num 3, .num 4, .num 5] =
      .ok (Frame.mk none none [] [.num 1, .num 2, .num 3]
        (some (Code.mk "h" [] 1 (some [.num 10, .num 20]) none)) 0) := by
  have h := (buildFrame_optional_params none 0 [] "h" [] 1 [.num 10, .num 20] none 5
    [.num 1, .num 2, .num 3, .num 4, .num 5] (by simp) (by decide)).2 (by decide)
  exact h.1

/-- Every frame buildFrame returns has its previous link set to the env
argument the caller passed. -/
theorem buildFrame_previous (env : Option Frame) (pc : Nat) (ops : List Nat)
    (c : Code) (fr : Option Frame) (argc : Nat) (stack : List LOB) (f : Frame)
    (h : buildFrame env pc ops c fr argc stack = .ok f) : f.previous = env := by
  obtain ⟨cn, co, ca, cd, ck⟩ := c
  unfold buildFrame at h
  cases cd with
  | none =>
    simp only [Code.defaults_mk, Code.argc_mk] at h
    split at h
    · exact Except.noConfusion h
    · simp only [Except.ok.injEq] at h
      subst h
      simp
  | some ds =>
    simp only [Code.defaults_mk, Code.argc_mk, Code.keys_mk] at h
    split at h
    · exact Except.noConfusion h
    · split at h
      · simp only [Except.ok.injEq] at h
        subst h
        simp
      · split at h
        · split at h
          · exact Except.noConfusion h
          · split at h
            · simp only [Except.ok.injEq] at h
              subst h
              simp
            · exact Except.noConfusion h
        · simp only [Except.ok.injEq] at h
          subst h
          simp

/-- C1: dispatching a tailcall instruction to a closure builds the
callee frame with its previous link equal to the current frame's
previous link, so no new caller link is created and the caller-chain
depth is unchanged: any run of consecutive closure tailcalls, a
self-recursive closure included, keeps the number of live caller frames
bounded. -/
theorem tailcall_closure_no_new_caller_link (afuel : Nat) (st : VMState)
    (c : Code) (fr : Option Frame) (restStack : List LOB) (f : Frame)
    (hop : opAt st.ops st.pc = opcodeTailCall)
    (hstack : st.stack = LOB.closure c fr :: restStack)
    (hbf : buildFrame st.env.previous st.env.pc st.env.ops c fr
        (opAt st.ops (st.pc + 1)) restStack = .ok f) :
    stepVM afuel st = .next { st with stack := restStack.drop (opAt st.ops (st.pc + 1)),
                                      env := f, ops := c.ops, pc := 0 } ∧
    f.previous = st.env.previous ∧
    depthOpt (some f) = depthOpt (some st.env) := by
  have hprev := buildFrame_previous _ _ _ _ _ _ _ _ hbf
  refine ⟨?_, hprev, ?_⟩
  · unfold stepVM
    rw [hop]
    simp only [opcodeTailCall, opcodeCall, opcodeGlobal, opcodeLocal, opcodeJumpFalse,
      opcodePop]
    norm_num
    rw [hstack]
    simp only [List.headD_cons, List.head?_cons, Option.getD_some, List.tail_cons,
      dispatchTailCall, hbf]
  · rw [depthOpt_some, depthOpt_some, hprev]

theorem tailcall_closure_no_new_caller_link_witness :
    stepVM 1 tailLoopState =
      .next { stack := [], env := Frame.mk none none [opcodeReturn] [] (some tailLoopCode) 0,
              ops := tailLoopCode.ops, pc := 0, globals := [], macs := [], pool := [] } ∧
    (Frame.mk none none [opcodeReturn] [] (some tailLoopCode) 0).previous =
      tailLoopState.env.previous ∧
    depthOpt (some (Frame.mk none none [opcodeReturn] [] (some tailLoopCode) 0)) =
      depthOpt (some tailLoopState.env) := by
  have h := tailcall_closure_no_new_caller_link 1 tailLoopState tailLoopCode none
    [] (Frame.mk none none [opcodeReturn] [] (some tailLoopCode) 0) rfl rfl rfl
  exact h

/-- C2 (amended): every error the VM loop surfaces is decorated by
addContext with the current frame's code name; the decoration is the
bracketed prefix "[<name>] " prepended before the error text, and an
unnamed or codeless frame leaves the text unchanged. -/
theorem vm_error_context_prefix (fuel : Nat) (st : VMState) (msg : String)
    (h : stepVM fuel st = .fail msg) :
    runVM (fuel + 1) st = .err (addContext st.env msg) ∧
    (∀ c : Code, st.env.code = some c → c.name ≠ "" →
      addContext st.env msg = "[" ++ c.name ++ "] " ++ msg) ∧
    (st.env.code = none → addContext st.env msg = msg) ∧
    (∀ c : Code, st.env.code = some c → c.name = "" → addContext st.env msg = msg) := by
  refine ⟨?_, ?_, ?_, ?_⟩
  · simp [runVM, h]
  · intro c hc hn
    simp [addContext, hc, hn]
  · intro hc
    simp [addContext, hc]
  · intro c hc hn
    simp [addContext, hc, hn]

theorem vm_error_context_prefix_witness :
    runVM 2 namedFrameState = .err (addContext namedFrameState.env "Undefined symbol: nosuch") ∧
    addContext namedFrameState.env "Undefined symbol: nosuch" = "[f] Undefined symbol: nosuch" := by
  have h := vm_error_context_prefix 1 namedFrameState "Undefined symbol: nosuch" rfl
  exact ⟨h.1, h.2.1 namedFrameCode rfl (by decide)⟩

/-- C2 counterexample: at a concrete erroring instruction inside a frame
whose code is named f, the surfaced error is the prefix form
"[f] <text>"; it is not the text with the suffix " [in f]" appended
that the claim describes. -/
theorem vm_error_context_not_suffix :
    runVM 2 namedFrameState = .err ("[f] Undefined symbol: nosuch") ∧
    "[f] Undefined symbol: nosuch" ≠ "Undefined symbol: nosuch" ++ " [in f]" := by
  refine ⟨rfl, by decide⟩

theorem properElems_listFromValues (es : List LOB) :
    properElems (listFromValues es) = some es := by
  induction es with
  | nil => rfl
  | cons e rest ih => simp [listFromValues, properElems, ih]

theorem isList_listFromValues (es : List LOB) : isList (listFromValues es) = true := by
  cases es <;> rfl

/-- C7: calling the Apply builtin with fewer than two arguments is an
argument-count error; a non-list final argument is an argument-type
error; otherwise the final list's elements are spliced onto the operand
stack after the intervening arguments and dispatch re-enters as a call
of the first argument with the combined argument count (intervening
count plus list length). -/
theorem apply_call_dispatch (afuel : Nat) (st : VMState) (argc savedPc : Nat) :
    (argc < 2 → dispatchCall afuel st .applyFn argc savedPc =
      .fail (argcErrorMsg "apply" "2+" argc)) ∧
    (∀ f lst mid rest, st.stack = f :: (mid ++ lst :: rest) → mid.length = argc - 2 →
      2 ≤ argc → isList lst = false →
      dispatchCall afuel st .applyFn argc savedPc = .fail (argTypeErrorMsg "list" argc lst)) ∧
    (∀ f es mid rest afuel2, afuel = afuel2 + 1 →
      st.stack = f :: (mid ++ listFromValues es :: rest) → mid.length = argc - 2 → 2 ≤ argc →
      dispatchCall afuel st .applyFn argc savedPc =
        dispatchCall afuel2 { st with stack := mid ++ es ++ rest } f
          (argc - 2 + es.length) savedPc) := by
  refine ⟨?_, ?_, ?_⟩
  · intro hlt
    simp [dispatchCall, hlt]
  · intro f lst mid rest hst hmid hge hnl
    have hnlt : ¬ argc < 2 := Nat.not_lt_of_le hge
    have h1 : argc - 1 = mid.length + 1 := by omega
    simp only [dispatchCall, hnlt, if_false]
    rw [hst, h1, List.getD_cons_succ,
      List.getD_append_right mid (lst :: rest) _ _ (Nat.le_refl mid.length),
      Nat.sub_self, List.getD_cons_zero]
    simp [hnl]
  · intro f es mid rest afuel2 hfa hst hmid hge
    subst hfa
    have hnlt : ¬ argc < 2 := Nat.not_lt_of_le hge
    have h1 : argc - 1 = mid.length + 1 := by omega
    have h2 : argc = mid.length + 2 := by omega
    simp only [dispatchCall, hnlt, if_false]
    rw [hst, h1, List.getD_cons_succ,
      List.getD_append_right mid (listFromValues es :: rest) _ _ (Nat.le_refl mid.length),
      Nat.sub_self, List.getD_cons_zero]
    simp only [isList_listFromValues, properElems_listFromValues, Bool.not_true,
      Bool.false_eq_true, if_false]
    have hdrop1 : (f :: (mid ++ listFromValues es :: rest)).drop 1 =
        mid ++ listFromValues es :: rest := rfl
    have htake : (mid ++ listFromValues es :: rest).take (argc - 2) = mid := by
      rw [show argc - 2 = mid.length from hmid.symm ▸ rfl]
      exact List.take_left mid _
    have hdropargc : (f :: (mid ++ listFromValues es :: rest)).drop argc = rest := by
      rw [h2, List.drop_succ_cons,
        show mid ++ listFromValues es :: rest = (mid ++ [listFromValues es]) ++ rest by simp,
        show mid.length + 1 = (mid ++ [listFromValues es]).length by simp]
      exact List.drop_left _ _
    rw [List.headD_cons, hdrop1, htake, hdropargc]
    simp

theorem apply_call_dispatch_witness :
    dispatchCall 2 applyDispatchState .applyFn 2 2 =
      dispatchCall 1 { applyDispatchState with stack := [.num 1, .num 2, .num 3, .num 4] }
        (.prim "+") 4 2 ∧
    runVM 4 applyRunState = .ok (.num 10) [] := by
  constructor
  · have h := (apply_call_dispatch 2 applyDispatchState 2 2).2.2 (.prim "+")
      [.num 1, .num 2, .num 3, .num 4] [] [] 1 rfl rfl rfl (by decide)
    simpa using h
  · rfl

/-- Walking a quasiquoted list whose items up to the first nested
quasiquote sub-form are non-pairs reaches that sub-form and stops with
the plain nested-quasiquote error, whatever the expander does. -/
theorem expandQQItems_nested_error (me : LOB → Except MErr LOB)
    (pre : List LOB) (t rest0 : LOB)
    (hpre : ∀ p ∈ pre, isPair p = false) :
    expandQQItems me (listFromValuesTail pre (.cons (.cons (.sym "quasiquote") t) rest0)) =
      .error (.genericErr "nested quasiquote not supported") := by
  induction pre with
  | nil => rfl
  | cons p pre2 ih =>
    have hp : isPair p = false := hpre p (by simp)
    have ih2 := ih (fun q hq => hpre q (List.mem_cons_of_mem _ hq))
    cases p <;> simp_all [expandQQItems, listFromValuesTail, isPair]

/-- expandQQ on a list whose head is neither a pair nor the unquote or
unquote-splicing symbol goes through the expandQQList walk. -/
theorem expandQQ_cons_generic (me : LOB → Except MErr LOB) (p tl : LOB)
    (hp : isPair p = false)
    (h2 : p ≠ .sym "unquote") (h3 : p ≠ .sym "unquote-splicing") :
    expandQQ me (.cons p tl) =
      match expandQQList me (.cons p tl) with
      | .error e => .error e
      | .ok tmp => me tmp := by
  cases p with
  | cons a b => simp [isPair] at hp
  | sym s =>
    have hs2 : s ≠ "unquote" := fun h => h2 (by rw [h])
    have hs3 : s ≠ "unquote-splicing" := fun h => h3 (by rw [h])
    unfold expandQQ
    split <;> first | rfl | simp_all
  | _ => rfl

/-- C9 (amended): macro-expanding a quasiquote form whose list body
holds, after a prefix of non-pair items none of which is an unquote
marker, a nested quasiquote sub-form returns an error; but that error
is the plain generic "nested quasiquote not supported" message, not a
syntax-error carrying the offending form. -/
theorem nested_quasiquote_generic_error (me : LOB → Except MErr LOB)
    (pre : List LOB) (t rest0 : LOB)
    (hpre : ∀ p ∈ pre, isPair p = false ∧ p ≠ .sym "unquote" ∧ p ≠ .sym "unquote-splicing") :
    expandQuasiquote me
      (.cons (.sym "quasiquote")
        (.cons (listFromValuesTail pre (.cons (.cons (.sym "quasiquote") t) rest0))
          .emptyList)) =
      .error (.genericErr "nested quasiquote not supported") := by
  have hitems := expandQQItems_nested_error me pre t rest0 (fun q hq => (hpre q hq).1)
  have hl : llen (LOB.cons (.sym "quasiquote")
      (.cons (listFromValuesTail pre (.cons (.cons (.sym "quasiquote") t) rest0))
        .emptyList)) = 2 := by
    simp [llen]
  unfold expandQuasiquote
  rw [hl]
  norm_num [cadr, car, cdr]
  cases pre with
  | nil =>
    simp only [listFromValuesTail] at hitems ⊢
    simp [expandQQ, expandQQList, hitems]
  | cons p pre2 =>
    obtain ⟨hp1, hp2, hp3⟩ := hpre p (by simp)
    simp only [listFromValuesTail] at hitems ⊢
    rw [expandQQ_cons_generic me p _ hp1 hp2 hp3]
    simp [expandQQList, hitems]

theorem nested_quasiquote_generic_error_witness :
    expandQuasiquote idExpander qqNestedForm =
      .error (.genericErr "nested quasiquote not supported") := by
  have h := nested_quasiquote_generic_error idExpander [] (.cons (.sym "b") .emptyList)
    .emptyList (by intro p hp; cases hp)
  exact h

/-- C9 counterexample: expanding (quasiquote ((quasiquote b))) returns
the generic nested-quasiquote error; it is not a syntax-error value
carrying the offending (quasiquote b) form. -/
theorem nested_quasiquote_counterexample :
    expandQuasiquote idExpander qqNestedForm =
      .error (.genericErr "nested quasiquote not supported") ∧
    expandQuasiquote idExpander qqNestedForm ≠ .error (.synErr qqOffending) := by
  have h1 : expandQuasiquote idExpander qqNestedForm =
      .error (.genericErr "nested quasiquote not supported") := rfl
  refine ⟨h1, ?_⟩
  rw [h1]
  simp

/-- A self-evaluating constant compiles (non-tail, result used) to a
single literal instruction over a freshly appended pool slot. -/
theorem compileExpr_selfEval (fuel : Nat) (c : Code) (pool : List LOB) (env : LOB)
    (v : LOB) (context : String) (hv : selfEval v = true) :
    compileExpr (fuel + 1) c pool env v false false context =
      .ok (c.appendOps [opcodeLiteral, pool.length], pool ++ [v]) := by
  cases v <;> first | rfl | simp [selfEval] at hv

/-- C8: set! of a symbol that does not resolve in the compile-time
lexical environment emits the defglobal opcode -- producing exactly the
code define produces -- so the set! (re)binds the global at run time and
succeeds whatever the previous state of the binding, an unbound symbol
included. -/
theorem setbang_unresolved_emits_defglobal (fuel : Nat) (s : String) (v : LOB) (g : Globals)
    (hv : selfEval v = true) :
    compile (fuel + 2) [] (.cons (.sym "set!") (.cons (.sym s) (.cons v .emptyList))) =
      .ok (Code.mk "" [opcodeLiteral, 0, opcodeDefGlobal, 1, opcodeReturn] 0 none none,
           [v, .sym s]) ∧
    compile (fuel + 2) [] (.cons (.sym "define") (.cons (.sym s) (.cons v .emptyList))) =
      .ok (Code.mk "" [opcodeLiteral, 0, opcodeDefGlobal, 1, opcodeReturn] 0 none none,
           [v, .sym s]) ∧
    runVM 4 (initState
        (Code.mk "" [opcodeLiteral, 0, opcodeDefGlobal, 1, opcodeReturn] 0 none none)
        [] g [v, .sym s]) = .ok v (defGlobal g s v) ∧
    getGlobal (defGlobal g s v) s = some v := by
  refine ⟨?_, ?_, ?_, ?_⟩
  · cases v <;> first | rfl | simp [selfEval] at hv
  · cases v <;> first | rfl | simp [selfEval] at hv
  · rfl
  · simp [getGlobal, defGlobal]

theorem setbang_unresolved_emits_defglobal_witness :
    compile 2 [] (.cons (.sym "set!") (.cons (.sym "x") (.cons (.num 42) .emptyList))) =
      .ok (Code.mk "" [opcodeLiteral, 0, opcodeDefGlobal, 1, opcodeReturn] 0 none none,
           [.num 42, .sym "x"]) ∧
    runVM 4 (initState
        (Code.mk "" [opcodeLiteral, 0, opcodeDefGlobal, 1, opcodeReturn] 0 none none)
        [] [] [.num 42, .sym "x"]) = .ok (.num 42) (defGlobal [] "x" (.num 42)) ∧
    getGlobal (defGlobal [] "x" (.num 42)) "x" = some (.num 42) := by
  have h := setbang_unresolved_emits_defglobal 0 "x" (.num 42) [] rfl
  exact ⟨h.1, h.2.2.1, h.2.2.2⟩

theorem Code.appendOps_nil (c : Code) : c.appendOps [] = c := by
  cases c
  simp [Code.appendOps]

theorem Code.appendOps_append (c : Code) (xs ys : List Nat) :
    (c.appendOps xs).appendOps ys = c.appendOps (xs ++ ys) := by
  cases c
  simp [Code.appendOps]

theorem litOps_length (base : Nat) (es : List LOB) :
    (litOps base es).length = 2 * es.length := by
  induction es generalizing base with
  | nil => rfl
  | cons e rest ih => simp [litOps, ih]; omega

theorem opAt_here (ops : List Nat) (pc x : Nat) (rest : List Nat)
    (h : ops.drop pc = x :: rest) : opAt ops pc = x := by
  unfold opAt
  rw [h]
  rfl

theorem opAt_next (ops : List Nat) (pc x y : Nat) (rest : List Nat)
    (h : ops.drop pc = x :: y :: rest) : opAt ops (pc + 1) = y := by
  have h2 : ops.drop (pc + 1) = y :: rest := by
    rw [← List.drop_drop 1 pc ops, h]
    rfl
  unfold opAt
  rw [h2]
  rfl

/-- A sequence of self-evaluating constants compiles, in the given
order, to one literal instruction each over freshly appended pool
slots. -/
theorem compileRevList_selfEval (es : List LOB) (fuel : Nat) (c : Code) (pool : List LOB)
    (env : LOB) (context : String)
    (hse : ∀ e ∈ es, selfEval e = true) (hfuel : es.length + 1 ≤ fuel) :
    compileRevList fuel c pool env es context =
      .ok (c.appendOps (litOps pool.length es), pool ++ es) := by
  induction es generalizing fuel c pool with
  | nil =>
    obtain ⟨f, rfl⟩ : ∃ f, fuel = f + 1 := ⟨fuel - 1, by omega⟩
    simp [compileRevList, litOps, Code.appendOps_nil]
  | cons e rest ih =>
    obtain ⟨f, rfl⟩ : ∃ f, fuel = f + 1 := ⟨fuel - 1, by omega⟩
    obtain ⟨f2, rfl⟩ : ∃ f2, f = f2 + 1 := by
      refine ⟨f - 1, ?_⟩
      simp at hfuel
      omega
    have he := hse e (by simp)
    rw [compileRevList, compileExpr_selfEval f2 c pool env e context he]
    have hih := ih (f2 + 1) (c.appendOps [opcodeLiteral, pool.length]) (pool ++ [e])
      (fun q hq => hse q (List.mem_cons_of_mem _ hq))
      (by simp at hfuel ⊢; omega)
    dsimp only
    rw [hih]
    simp [litOps, Code.appendOps_append]

/-- Executing a block of literal instructions pushes the named pool
constants, left to right on the downward stack. -/
theorem runVM_literals (es : List LOB) (base : Nat) (st : VMState) (tailOps : List Nat)
    (fuel : Nat)
    (hops : st.ops.drop st.pc = litOps base es ++ tailOps)
    (hpool : ∀ k, k < es.length → st.pool.getD (base + k) .nullv = es.getD k .nullv) :
    runVM (fuel + es.length) st =
      runVM fuel { st with pc := st.pc + 2 * es.length, stack := es.reverse ++ st.stack } := by
  induction es generalizing base st with
  | nil =>
    simp only [List.length_nil, Nat.add_zero, Nat.mul_zero, List.reverse_nil,
      List.nil_append]
  | cons e rest ih =>
    have hops2 : st.ops.drop st.pc = opcodeLiteral :: base :: (litOps (base + 1) rest ++ tailOps) := by
      simpa [litOps] using hops
    have h0 := opAt_here _ _ _ _ hops2
    have h1 := opAt_next _ _ _ _ _ hops2
    have hpush : st.pool.getD (opAt st.ops (st.pc + 1)) .nullv = e := by
      rw [h1]
      have := hpool 0 (by simp)
      simpa using this
    rw [show fuel + (e :: rest).length = (fuel + rest.length) + 1 from rfl]
    rw [runVM]
    have hstep : stepVM (fuel + rest.length) st =
        .next { st with stack := e :: st.stack, pc := st.pc + 2 } := by
      unfold stepVM
      rw [h0]
      rw [List.getD_eq_getElem?_getD] at hpush
      norm_num [opcodeLiteral, opcodeCall, opcodeGlobal, opcodeLocal, opcodeJumpFalse,
        opcodePop, opcodeTailCall]
      rw [hpush]
    rw [hstep]
    dsimp only
    have hops3 : ({ st with stack := e :: st.stack, pc := st.pc + 2 } : VMState).ops.drop
        (st.pc + 2) = litOps (base + 1) rest ++ tailOps := by
      show st.ops.drop (st.pc + 2) = _
      rw [← List.drop_drop 2 st.pc st.ops, hops2]
      rfl
    have hpool3 : ∀ k, k < rest.length →
        ({ st with stack := e :: st.stack, pc := st.pc + 2 } : VMState).pool.getD
          (base + 1 + k) .nullv = rest.getD k .nullv := by
      intro k hk
      show st.pool.getD (base + 1 + k) .nullv = _
      have := hpool (k + 1) (by simp; omega)
      rw [show base + (k + 1) = base + 1 + k by omega] at this
      simpa using this
    rw [ih (base + 1) _ hops3 hpool3]
    congr 1
    simp
    omega

/-- Executing a vector instruction over the whole stack followed by a
return in the root frame finishes with the collected vector. -/
theorem runVM_vector_return (st : VMState) (n : Nat) (elems : List LOB)
    (hops : st.ops.drop st.pc = [opcodeVector, n, opcodeReturn])
    (hstack : st.stack = elems) (hn : elems.length = n)
    (henv : st.env = Frame.mk none none [] [] none 0) :
    runVM 3 st = .ok (.vec elems) st.globals := by
  have h0 := opAt_here _ _ _ _ hops
  have h1 := opAt_next _ _ _ _ _ hops
  have hstep : stepVM 2 st = .next { st with stack := [.vec elems], pc := st.pc + 2 } := by
    unfold stepVM
    rw [h0]
    norm_num [opcodeVector, opcodeCall, opcodeGlobal, opcodeLocal, opcodeJumpFalse,
      opcodePop, opcodeTailCall, opcodeLiteral, opcodeSetLocal, opcodeClosure,
      opcodeReturn, opcodeJump, opcodeDefGlobal, opcodeUndefGlobal, opcodeDefMac,
      opcodeUse, opcodeStruct]
    rw [h1, hstack, ← hn]
    simp
  rw [show (3 : Nat) = 2 + 1 from rfl, runVM, hstep]
  dsimp only
  have h2 : st.ops.drop (st.pc + 2) = [opcodeReturn] := by
    rw [← List.drop_drop 2 st.pc st.ops, hops]
    rfl
  have hstep2 : stepVM 1 ({ st with stack := [LOB.vec elems], pc := st.pc + 2 } : VMState) =
      .done (.vec elems) st.globals := by
    unfold stepVM
    rw [opAt_here _ _ _ _ h2]
    norm_num [opcodeReturn, opcodeCall, opcodeGlobal, opcodeLocal, opcodeJumpFalse,
      opcodePop, opcodeTailCall, opcodeLiteral, opcodeSetLocal, opcodeClosure]
    simp [henv]
  rw [show (2 : Nat) = 1 + 1 from rfl, runVM, hstep2]

/-- C6: a vector literal of self-evaluating constants compiles to its
element expressions in reverse index order (the pool receives the
elements last first) followed by a single vector instruction carrying
the element count; executing the code builds the vector from the
element count stack cells in increasing address order, so the final
result is a vector holding the literal elements in left-to-right
order. -/
theorem vector_literal_left_to_right (elems : List LOB) (g : Globals)
    (hse : ∀ e ∈ elems, selfEval e = true) :
    compile (elems.length + 3) [] (.vec elems) =
      .ok (Code.mk ""
             (litOps 0 elems.reverse ++ [opcodeVector, elems.length, opcodeReturn])
             0 none none,
           elems.reverse) ∧
    runVM (elems.length + 3)
      (initState
        (Code.mk "" (litOps 0 elems.reverse ++ [opcodeVector, elems.length, opcodeReturn])
          0 none none)
        [] g elems.reverse) = .ok (.vec elems) g := by
  constructor
  · unfold compile
    rw [show elems.length + 3 = (elems.length + 2) + 1 from rfl]
    have hrev : ∀ e ∈ elems.reverse, selfEval e = true := by
      intro e he
      exact hse e (List.mem_reverse.mp he)
    have hc : compileExpr (elems.length + 2 + 1) (Code.mk "" [] 0 none none) [] .emptyList
        (.vec elems) false false "" =
        .ok (((Code.mk "" [] 0 none none).appendOps (litOps 0 elems.reverse)).emitVector
          elems.length, [] ++ elems.reverse) := by
      rw [compileExpr]
      rw [compileRevList_selfEval elems.reverse (elems.length + 2) _ _ _ _ hrev
        (by simp)]
      simp [isSymbol]
    rw [hc]
    dsimp only
    simp [Code.emitVector, Code.emitReturn, Code.appendOps]
  · rw [show elems.length + 3 = 3 + elems.reverse.length by rw [List.length_reverse]; omega]
    rw [runVM_literals elems.reverse 0 _ [opcodeVector, elems.length, opcodeReturn] 3
      (by simp [initState]) ?hpool]
    case hpool =>
      intro k hk
      simp [initState]
    have hdrop : (litOps 0 elems.reverse ++
        [opcodeVector, elems.length, opcodeReturn]).drop (0 + 2 * elems.reverse.length) =
        [opcodeVector, elems.length, opcodeReturn] := by
      rw [Nat.zero_add, ← litOps_length 0 elems.reverse]
      exact List.drop_left _ _
    exact runVM_vector_return _ elems.length elems (by simpa [initState] using hdrop)
      (by simp [initState]) rfl (by simp [initState])

theorem vector_literal_left_to_right_witness :
    compile 6 [] (.vec [.num 1, .num 2, .num 3]) =
      .ok (Code.mk ""
             (litOps 0 [LOB.num 3, LOB.num 2, LOB.num 1] ++ [opcodeVector, 3, opcodeReturn])
             0 none none,
           [LOB.num 3, LOB.num 2, LOB.num 1]) ∧
    runVM 6 (initState
        (Code.mk "" (litOps 0 [LOB.num 3, LOB.num 2, LOB.num 1] ++ [opcodeVector, 3, opcodeReturn])
          0 none none)
        [] [] [LOB.num 3, LOB.num 2, LOB.num 1]) =
      .ok (.vec [.num 1, .num 2, .num 3]) [] := by
  have h := vector_literal_left_to_right [.num 1, .num 2, .num 3] [] (by
    intro e he
    fin_cases he <;> rfl)
  exact h

theorem flatPairs_length (pairs : List (String × LOB)) :
    (flatPairs pairs).length = 2 * pairs.length := by
  induction pairs with
  | nil => rfl
  | cons kv rest ih =>
    obtain ⟨k, v⟩ := kv
    simp [flatPairs, ih]
    omega

theorem keyIndex_not_mem (names : List String) (k : String) (j : Nat) (h : k ∉ names) :
    keyIndex k (names.map .sym) j = none := by
  induction names generalizing j with
  | nil => rfl
  | cons n rest ih =>
    have h1 : ¬ n = k := fun he => h (by simp [he])
    have h2 : k ∉ rest := fun hr => h (by simp [hr])
    simp [keyIndex, h1, ih (j + 1) h2]

theorem keyIndex_mem_spec (names : List String) (k : String) (h : k ∈ names) :
    ∃ i, i < names.length ∧ names.getD i "" = k ∧
      ∀ j, keyIndex k (names.map .sym) j = some (j + i) := by
  induction names with
  | nil => cases h
  | cons n rest ih =>
    by_cases he : n = k
    · exact ⟨0, by simp, by simp [he], fun j => by simp [keyIndex, he]⟩
    · have h2 : k ∈ rest := by
        cases List.mem_cons.mp h with
        | inl hh => exact absurd hh.symm he
        | inr hh => exact hh
      obtain ⟨i, hi1, hi2, hi3⟩ := ih h2
      refine ⟨i + 1, by simp; omega, by simpa using hi2, fun j => ?_⟩
      simp only [List.map_cons, keyIndex, he, if_false]
      rw [hi3 (j + 1)]
      congr 1
      omega

theorem nodup_getD_inj (names : List String) (hnd : names.Nodup) (i i2 : Nat)
    (hi : i < names.length) (hi2 : i2 < names.length)
    (he : names.getD i "" = names.getD i2 "") : i = i2 := by
  rw [List.getD_eq_getElem _ _ hi, List.getD_eq_getElem _ _ hi2] at he
  exact (List.Nodup.getElem_inj_iff hnd).mp he

theorem getD_set_self (l : List LOB) (m : Nat) (a d : LOB) (h : m < l.length) :
    (l.set m a).getD m d = a := by
  rw [List.getD_eq_getElem?_getD, List.getElem?_set_eq_of_lt a h]
  rfl

theorem getD_set_ne (l : List LOB) (m q : Nat) (a d : LOB) (h : m ≠ q) :
    (l.set m a).getD q d = l.getD q d := by
  rw [List.getD_eq_getElem?_getD, List.getElem?_set_ne h, ← List.getD_eq_getElem?_getD]

theorem set_append_offset (pre l2 : List LOB) (n : Nat) (a : LOB) :
    (pre ++ l2).set (pre.length + n) a = pre ++ l2.set n a := by
  induction pre with
  | nil => simp
  | cons x rest ih =>
    rw [List.cons_append, show (x :: rest).length + n = (rest.length + n) + 1 by simp; omega,
      List.set_cons_succ, ih, List.cons_append]

theorem range_map_getD (l : List LOB) :
    (List.range l.length).map (fun j => l.getD j .nullv) = l := by
  induction l with
  | nil => rfl
  | cons x rest ih =>
    rw [List.length_cons, List.range_succ_eq_map]
    simp only [List.map_cons, List.map_map, List.getD_cons_zero]
    rw [show ((fun j => (x :: rest).getD j .nullv) ∘ Nat.succ) =
      (fun j => rest.getD j .nullv) from rfl]
    rw [ih]

theorem lastValue_append_last (key : String) (dflt : LOB) (pairs : List (String × LOB))
    (v : LOB) : lastValue key dflt (pairs ++ [(key, v)]) = v := by
  induction pairs generalizing dflt with
  | nil => simp [lastValue]
  | cons kv rest ih =>
    obtain ⟨k2, v2⟩ := kv
    rw [List.cons_append, lastValue]
    exact ih _

theorem lastValue_not_mem (key : String) (dflt : LOB) (pairs : List (String × LOB))
    (h : key ∉ pairs.map Prod.fst) : lastValue key dflt pairs = dflt := by
  induction pairs generalizing dflt with
  | nil => rfl
  | cons kv rest ih =>
    obtain ⟨k2, v2⟩ := kv
    have h1 : ¬ k2 = key := fun he => h (by simp [he])
    have h2 : key ∉ rest.map Prod.fst := fun hr => h (by simp; right; simpa using hr)
    rw [lastValue, if_neg h1]
    exact ih _ h2

theorem kwSlots_nil_pairs (names : List String) (ds : List LOB)
    (h : ds.length = names.length) : kwSlots names ds [] = ds := by
  unfold kwSlots
  simp only [lastValue]
  rw [← h, range_map_getD]

theorem kwSlots_step (names : List String) (ds : List LOB) (k : String) (v : LOB)
    (rest : List (String × LOB)) (j0 : Nat)
    (hnd : names.Nodup) (hlen : ds.length = names.length)
    (hj0 : j0 < names.length) (hgd : names.getD j0 "" = k) :
    kwSlots names ds ((k, v) :: rest) = kwSlots names (ds.set j0 v) rest := by
  unfold kwSlots
  apply List.map_congr_left
  intro j hj
  have hjlt : j < names.length := List.mem_range.mp hj
  show lastValue (names.getD j "") (if k = names.getD j "" then v else ds.getD j .nullv)
    rest = lastValue (names.getD j "") ((ds.set j0 v).getD j .nullv) rest
  congr 1
  by_cases hk : names.getD j "" = k
  · have hjj0 : j = j0 := nodup_getD_inj names hnd j j0 hjlt hj0 (by rw [hk, hgd])
    subst hjj0
    rw [if_pos hk.symm, getD_set_self _ _ _ _ (by rw [hlen]; exact hjlt)]
  · rw [if_neg (fun he => hk he.symm),
      getD_set_ne _ _ _ _ _ (fun he => hk (by rw [← he, hgd]))]

/-- Binding one well-formed keyword pair overwrites the named slot and
continues with the rest of the pairs. -/
theorem assignKeys_known_step (names : List String) (req : Nat) (pre cur : List LOB)
    (k : String) (v : LOB) (rest : List LOB) (j0 : Nat)
    (hfirst : ∀ j, keyIndex k (names.map .sym) j = some (j + j0))
    (hpre : pre.length = req) :
    assignKeys (names.map .sym) names.length req (pre ++ cur) (.sym k :: v :: rest) =
      assignKeys (names.map .sym) names.length req (pre ++ cur.set j0 v) rest := by
  rw [assignKeys]
  simp only [toSymbol]
  rw [show (names.map LOB.sym).take names.length = names.map LOB.sym by
    rw [show names.length = (names.map LOB.sym).length by simp]
    exact List.take_length _]
  rw [hfirst 0]
  simp only [Nat.zero_add]
  rw [← hpre, set_append_offset]

/-- All supplied keys known: the binding loop succeeds and the keyword
section of the slots ends as kwSlots describes. -/
theorem assignKeys_all_known (names : List String) (req : Nat) (pre : List LOB)
    (pairs : List (String × LOB)) (cur : List LOB)
    (hnd : names.Nodup) (hlen : cur.length = names.length) (hpre : pre.length = req)
    (hp : ∀ kv ∈ pairs, kv.1 ∈ names) :
    assignKeys (names.map .sym) names.length req (pre ++ cur) (flatPairs pairs) =
      .ok (pre ++ kwSlots names cur pairs) := by
  induction pairs generalizing cur with
  | nil =>
    rw [show flatPairs [] = [] from rfl, assignKeys, kwSlots_nil_pairs names cur hlen]
  | cons kv rest ih =>
    obtain ⟨k, v⟩ := kv
    have hk : k ∈ names := hp (k, v) (by simp)
    obtain ⟨j0, hj0, hgd, hfirst⟩ := keyIndex_mem_spec names k hk
    rw [show flatPairs ((k, v) :: rest) = .sym k :: v :: flatPairs rest from rfl]
    rw [assignKeys_known_step names req pre cur k v _ j0 hfirst hpre]
    rw [ih (cur.set j0 v) (by simp [hlen]) (fun q hq => hp q (by simp [hq]))]
    rw [kwSlots_step names cur k v rest j0 hnd hlen hj0 hgd]

/-- A key outside the keys vector stops the binding loop with an
error. -/
theorem assignKeys_unknown_key (names : List String) (req : Nat) (pre : List LOB)
    (good : List (String × LOB)) (cur : List LOB) (k : String) (v : LOB) (more : List LOB)
    (hpre : pre.length = req)
    (hgood : ∀ kv ∈ good, kv.1 ∈ names) (hk : k ∉ names) :
    assignKeys (names.map .sym) names.length req (pre ++ cur)
        (flatPairs good ++ .sym k :: v :: more) =
      .error ("Undefined keyword argument: " ++ k) := by
  induction good generalizing cur with
  | nil =>
    rw [show flatPairs [] ++ LOB.sym k :: v :: more = .sym k :: v :: more from rfl]
    rw [assignKeys]
    simp only [toSymbol]
    rw [show (names.map LOB.sym).take names.length = names.map LOB.sym by
      rw [show names.length = (names.map LOB.sym).length by simp]
      exact List.take_length _]
    rw [keyIndex_not_mem names k 0 hk]
  | cons kv rest ih =>
    obtain ⟨k2, v2⟩ := kv
    obtain ⟨j0, _, _, hfirst⟩ := keyIndex_mem_spec names k2 (hgood (k2, v2) (by simp))
    rw [show flatPairs ((k2, v2) :: rest) ++ LOB.sym k :: v :: more =
      .sym k2 :: v2 :: (flatPairs rest ++ .sym k :: v :: more) from rfl]
    rw [assignKeys_known_step names req pre cur k2 v2 _ j0 hfirst hpre]
    exact ih (cur.set j0 v2) (fun q hq => hgood q (by simp [hq]))

/-- C4: calling a closure with keyword parameters (non-nil keys) and at
least the required arguments consumes the extras as (key, value) pairs:
an odd number of extras errors, an unknown key errors, the required
arguments are bound positionally, and each keyword slot holds the value
of the last pair naming it or its default when no pair does (the final
two conjuncts spell out last-wins and default-kept for the slot
function). -/
theorem buildFrame_keyword_params (env : Option Frame) (pc : Nat) (ops : List Nat)
    (cname : String) (cops : List Nat) (req : Nat) (names : List String) (ds : List LOB)
    (fr : Option Frame) (reqArgs tl : List LOB)
    (hlen : names.length = ds.length) (hne : ds ≠ []) (hnd : names.Nodup)
    (hreq : reqArgs.length = req) :
    (∀ bnds : List LOB, bnds.length % 2 = 1 →
      ∃ e, buildFrame env pc ops (kwCodeOf cname cops req names ds) fr (req + bnds.length)
          (reqArgs ++ bnds ++ tl) = .error e) ∧
    (∀ pairs : List (String × LOB), (∀ kv ∈ pairs, kv.1 ∈ names) →
      buildFrame env pc ops (kwCodeOf cname cops req names ds) fr (req + 2 * pairs.length)
          (reqArgs ++ flatPairs pairs ++ tl) =
        .ok (Frame.mk fr env ops (reqArgs ++ kwSlots names ds pairs)
          (some (kwCodeOf cname cops req names ds)) pc)) ∧
    (∀ (good : List (String × LOB)) (k : String) (v : LOB) (more : List LOB),
      (∀ kv ∈ good, kv.1 ∈ names) → k ∉ names → more.length % 2 = 0 →
      buildFrame env pc ops (kwCodeOf cname cops req names ds) fr
          (req + (2 * good.length + 2 + more.length))
          (reqArgs ++ (flatPairs good ++ .sym k :: v :: more) ++ tl) =
        .error ("Undefined keyword argument: " ++ k)) ∧
    (∀ (key : String) (dflt : LOB) (pairs : List (String × LOB)) (v : LOB),
      lastValue key dflt (pairs ++ [(key, v)]) = v) ∧
    (∀ (key : String) (dflt : LOB) (pairs : List (String × LOB)),
      key ∉ pairs.map Prod.fst → lastValue key dflt pairs = dflt) := by
  have hd0 : ¬ ds.length = 0 := by simpa using hne
  have hdrop : ∀ B : List LOB, (reqArgs ++ B ++ tl).drop req = B ++ tl := by
    intro B
    rw [List.append_assoc, ← hreq, List.drop_left]
  have htakeReq : ∀ B : List LOB, (reqArgs ++ B ++ tl).take req = reqArgs := by
    intro B
    rw [List.append_assoc, ← hreq, List.take_left]
  refine ⟨?_, ?_, ?_, fun key dflt pairs v => lastValue_append_last key dflt pairs v,
    fun key dflt pairs h => lastValue_not_mem key dflt pairs h⟩
  · intro bnds hodd
    unfold buildFrame
    have hnlt : ¬ (req + bnds.length < req) := by omega
    have htake : (bnds ++ tl).take (req + bnds.length - req) = bnds := by
      rw [Nat.add_sub_cancel_left]
      exact List.take_left _ _
    simp only [kwCodeOf, Code.defaults_mk, Code.argc_mk, Code.keys_mk, hdrop bnds, htake,
      htakeReq bnds]
    simp [hd0, hnlt, hodd]
  · intro pairs hp
    unfold buildFrame
    have hnlt : ¬ (req + 2 * pairs.length < req) := by omega
    have htake : (flatPairs pairs ++ tl).take (req + 2 * pairs.length - req) =
        flatPairs pairs := by
      rw [Nat.add_sub_cancel_left, ← flatPairs_length]
      exact List.take_left _ _
    have hak := assignKeys_all_known names req reqArgs pairs ds hnd hlen.symm hreq hp
    simp only [kwCodeOf, Code.defaults_mk, Code.argc_mk, Code.keys_mk, hdrop (flatPairs pairs),
      htake, htakeReq (flatPairs pairs)]
    simp only [hd0, if_false, hnlt, flatPairs_length]
    rw [show (2 * pairs.length) % 2 = 0 by omega]
    simp only [hlen.symm] at hak ⊢
    simp [hak]
  · intro good k v more hgood hk hmore
    unfold buildFrame
    have hnlt : ¬ (req + (2 * good.length + 2 + more.length) < req) := by omega
    have hblen : (flatPairs good ++ LOB.sym k :: v :: more).length =
        2 * good.length + 2 + more.length := by
      simp [flatPairs_length]
      omega
    have htake : ((flatPairs good ++ LOB.sym k :: v :: more) ++ tl).take
        (req + (2 * good.length + 2 + more.length) - req) =
        flatPairs good ++ LOB.sym k :: v :: more := by
      rw [Nat.add_sub_cancel_left, ← hblen]
      exact List.take_left _ _
    have hak := assignKeys_unknown_key names req reqArgs good ds k v more hreq hgood hk
    simp only [kwCodeOf, Code.defaults_mk, Code.argc_mk, Code.keys_mk,
      hdrop (flatPairs good ++ LOB.sym k :: v :: more), htake,
      htakeReq (flatPairs good ++ LOB.sym k :: v :: more)]
    simp only [hd0, if_false, hnlt, hblen]
    rw [show (2 * good.length + 2 + more.length) % 2 = 0 by omega]
    simp only [hlen.symm] at hak ⊢
    simp [hak]

theorem buildFrame_keyword_params_witness :
    buildFrame none 0 [] (kwCodeOf "f" [] 1 ["y", "z"] [.num 10, .num 20]) none 3
        [.num 1, .sym "z", .num 5] =
      .ok (Frame.mk none none [] [.num 1, .num 10, .num 5]
        (some (kwCodeOf "f" [] 1 ["y", "z"] [.num 10, .num 20])) 0) := by
  have h := (buildFrame_keyword_params none 0 [] "f" [] 1 ["y", "z"]
    [.num 10, .num 20] none [.num 1] [] rfl (by simp) (by decide) rfl).2.1
    [("z", .num 5)] (by simp)
  exact h

end Gell

